import Mathlib

/-!
Shallow embedding of the addressing/persistence core of `autofile`
(`autofile/model.py`): `DataFile` (FileSlot), `DataSeries` (AddressSpace),
`DataSeriesFile` (FileBinding) and `JSONObject`/`JSONEntry`
(DocumentField/DocumentStore), together with a functional model of the
filesystem state they act on.

Modelling conventions:
* a filesystem path is a list of name segments; the stored prefixes are
  absolute paths represented by their segment lists;
* Python exceptions are `Err` values; a state-mutating operation returns
  `Except Err α × FS` where the returned state reflects mutations performed
  before the failure (Python exceptions do not roll the filesystem back);
* the document file contents are kept structurally (`JVal`), standing for the
  parsed JSON text; `FS` carries counters for document reads/writes so that
  batching claims about I/O amortization can be stated;
* `autofile.io_.read_file`/`write_file` and `autofile.json_.read_json`/
  `write_json` are not part of the sources under inspection; they are
  modelled from the spec where so marked.
-/

namespace Autofile

set_option autoImplicit false

universe u v

/-- Kinds of Python exceptions raised by the modelled code. -/
inductive Err where
  | assertionError
  | valueError
  | fileNotFound
  | fileExists
  | attributeError
  | documentCorruption
  deriving DecidableEq, Repr

/-- A (normalized) Python path: an absoluteness flag plus name segments.
`os.path.join`, `os.path.relpath` and the repo's `_os_path_split_all` are
interpreted on this representation. -/
structure PyPath where
  absolute : Bool
  segs : List String
  deriving DecidableEq, Repr

/-- The path rendered as the string Python would manipulate. -/
def PyPath.render (p : PyPath) : String :=
  (if p.absolute then "/" else "") ++ String.intercalate "/" p.segs

/-- Model of `_path_is_relative` (`os.path.relpath(pth) == pth`): true exactly
for (normalized) relative paths. -/
def pathIsRelative (p : PyPath) : Bool :=
  !p.absolute

/-- Length of the list produced by the repo's `_os_path_split_all`: an absolute
path contributes a leading root part; the empty relative path splits to one
empty part. -/
def pathSplitAllLength (p : PyPath) : Nat :=
  if p.absolute then p.segs.length + 1
  else if p.segs.isEmpty then 1 else p.segs.length

/-- Model of `_path_has_depth`. -/
def pathHasDepth (p : PyPath) (d : Nat) : Bool :=
  pathSplitAllLength p == d

/-- Absolute-path string of a segment list, used as the sort key mirroring
Python's lexicographic sorting of path strings. -/
def pathKey (p : List String) : String :=
  "/" ++ String.intercalate "/" p

/-- Code-point lexicographic comparison of character lists (Python's string
`<=` on path strings, computably). -/
def charListLe : List Char → List Char → Bool
  | [], _ => true
  | _ :: _, [] => false
  | a :: as, b :: bs =>
    if a.toNat < b.toNat then true
    else if b.toNat < a.toNat then false
    else charListLe as bs

/-- Does a name start with a dot (the names a `*` glob pattern skips)? -/
def strIsHidden (s : String) : Bool :=
  match s.data with
  | c :: _ => c == '.'
  | [] => false

/-- Parsed nested-document value: a nested mapping or a serialized leaf. -/
inductive JVal where
  | obj (entries : List (String × JVal))
  | str (s : String)

/-- Insertion-ordered association update (mirrors `dct[k] = v` on a Python
dict: an existing key keeps its position, a new key is appended). -/
def listSet {κ : Type u} {ν : Type v} [BEq κ] : List (κ × ν) → κ → ν → List (κ × ν)
  | [], k, v => [(k, v)]
  | (k', v') :: rest, k, v =>
    if k' == k then (k, v) :: rest else (k', v') :: listSet rest k v

/-- The filesystem state: existing directories, plain text files, parsed
document files, and counters of document reads/writes (for the batching
claims). -/
structure FS where
  dirs : List (List String)
  files : List (List String × String)
  docs : List (List String × JVal)
  jreads : Nat
  jwrites : Nat

/-- Model of `os.path.isdir`. -/
def FS.isdir (fs : FS) (p : List String) : Bool :=
  fs.dirs.contains p

/-- Model of `os.path.isfile` (document files are files too). -/
def FS.isfile (fs : FS) (p : List String) : Bool :=
  (fs.files.lookup p).isSome || (fs.docs.lookup p).isSome

/-- Model of `os.path.exists`. -/
def FS.pathExists (fs : FS) (p : List String) : Bool :=
  fs.isdir p || fs.isfile p

/-- Modelled from the spec: `autofile.io_.write_file` (module absent from the
sources) serializes by whole-file replacement at the given path. -/
def FS.setFile (fs : FS) (p : List String) (s : String) : FS :=
  { fs with files := listSet fs.files p s }

/-- Model of `os.makedirs`: creates the directory and all missing ancestors;
raises if the directory already exists (the callers guard this), and raises
on the degenerate empty path (`os.makedirs` on `''`/`'/'`). -/
def FS.makedirs (fs : FS) (p : List String) : Except Err FS :=
  if p.isEmpty then .error .fileExists
  else if fs.isdir p then .error .fileExists
  else .ok { fs with
    dirs := fs.dirs ++
      ((List.range p.length).map (fun i => p.take (i + 1))).filter
        (fun q => !fs.isdir q) }

/-- Model of `os.remove`: deletes a file, raising when it is absent. -/
def FS.osRemove (fs : FS) (p : List String) : Except Err Unit × FS :=
  if fs.isfile p then
    (.ok (), { fs with
      files := fs.files.filter (fun e => !(e.1 == p)),
      docs := fs.docs.filter (fun e => !(e.1 == p)) })
  else (.error .fileNotFound, fs)

/-- Model of `shutil.rmtree`: removes the directory and everything below it. -/
def FS.rmtree (fs : FS) (p : List String) : FS :=
  { fs with
    dirs := fs.dirs.filter (fun d => !(p.isPrefixOf d)),
    files := fs.files.filter (fun e => !(p.isPrefixOf e.1)),
    docs := fs.docs.filter (fun e => !(p.isPrefixOf e.1)) }

/-- Counter bump for document reads. -/
def FS.bumpR (fs : FS) : FS :=
  { fs with jreads := fs.jreads + 1 }

/-- Modelled from the spec: `autofile.json_.read_json` (module absent from the
sources) reads and parses the document file; a missing file yields the empty
nested mapping (the spec: an unset key, "including the case where the document
file itself has never been created", is an absent result, not an error) and
contents that are not a nested mapping are a corruption error. Counts one
document read. -/
def readJson (fs : FS) (p : List String) : Except Err JVal × FS :=
  match fs.docs.lookup p with
  | some (JVal.obj es) => (.ok (JVal.obj es), fs.bumpR)
  | some (JVal.str _) => (.error .documentCorruption, fs.bumpR)
  | none =>
    if (fs.files.lookup p).isSome then (.error .documentCorruption, fs.bumpR)
    else (.ok (JVal.obj []), fs.bumpR)

/-- Modelled from the spec: `autofile.json_.write_json` rewrites the whole
document file. Counts one document write. -/
def writeJson (fs : FS) (p : List String) (j : JVal) : FS :=
  { fs with docs := listSet fs.docs p j, jwrites := fs.jwrites + 1 }

/-- `DataFile` (the spec's FileSlot): a named file with pluggable
serializer/deserializer. -/
structure DataFile (α : Type u) where
  name : String
  writer_ : α → String
  reader_ : String → α
  removable : Bool

/-- `DataFile.__init__`: the constructor always sets `removable = False` and
offers no parameter to change it. -/
def DataFile.init {α : Type u} (name : String) (writer_ : α → String)
    (reader_ : String → α) : DataFile α :=
  { name := name, writer_ := writer_, reader_ := reader_, removable := false }

/-- `DataFile.path`. -/
def DataFile.path {α : Type u} (df : DataFile α) (dirPth : List String) :
    List String :=
  dirPth ++ [df.name]

/-- `DataFile.exists`. -/
def DataFile.exists {α : Type u} (df : DataFile α) (dirPth : List String)
    (fs : FS) : Bool :=
  fs.isfile (df.path dirPth)

/-- `DataFile.write`: asserts that the directory exists, then serializes and
writes. -/
def DataFile.write {α : Type u} (df : DataFile α) (val : α)
    (dirPth : List String) (fs : FS) : Except Err Unit × FS :=
  if fs.pathExists dirPth then
    (.ok (), fs.setFile (df.path dirPth) (df.writer_ val))
  else (.error .assertionError, fs)

/-- `DataFile.read`: asserts that the file exists, then reads and
deserializes. (A structured document behind a plain `DataFile` is not
modelled; that branch is unreachable in the repo's use.) -/
def DataFile.read {α : Type u} (df : DataFile α) (dirPth : List String)
    (fs : FS) : Except Err α :=
  if df.exists dirPth fs then
    match fs.files.lookup (df.path dirPth) with
    | some s => .ok (df.reader_ s)
    | none => .error .valueError
  else .error .assertionError

/-- `DataFile.remove`: only possible when `removable` is set; `os.remove`
raises when the file is missing. -/
def DataFile.remove {α : Type u} (df : DataFile α) (dirPth : List String)
    (fs : FS) : Except Err Unit × FS :=
  if df.removable then fs.osRemove (df.path dirPth)
  else (.error .valueError, fs)

/-- The per-level data of a `DataSeries` (the spec's AddressSpace): stored
prefix, locator→relative-path mapping, arity, depth, optional
locator-recording file, removability flag. Source: `DataSeries.__init__`.
(The dynamic `file`/`json` attribute namespaces are not part of the
addressing core modelled here.) -/
structure DSLevel where
  pre : PyPath
  map_ : List String → PyPath
  nlocs : Nat
  depth : Nat
  loc_dfile : Option (DataFile (List String))
  removable : Bool

/-- A `DataSeries` together with its chain of parents: `roots` holds the
immediate parent level first (`self.root`, `self.root.root`, ...); this is an
isomorphic unfolding of the recursive `root_ds` attribute. -/
structure DataSeries where
  level : DSLevel
  roots : List DSLevel

/-- The `root` attribute recovered from the unfolded chain. -/
def DataSeries.root (ds : DataSeries) : Option DataSeries :=
  match ds.roots with
  | [] => none
  | r :: rs => some ⟨r, rs⟩

/-- Sum of arities along a parent chain (`root_locator_count` recursion). -/
def sumNlocs : List DSLevel → Nat
  | [] => 0
  | r :: rs => r.nlocs + sumNlocs rs

/-- `DataSeries.root_locator_count`. -/
def DataSeries.rootLocatorCount (ds : DataSeries) : Nat :=
  sumNlocs ds.roots

/-- Shared tail of `DataSeries.path`: assert the local locator count, map to a
relative path, assert shape, and join onto the prefix. -/
def levelJoin (lvl : DSLevel) (pre : List String) (locs : List String) :
    Except Err (List String) :=
  if locs.length == lvl.nlocs then
    let pth := lvl.map_ locs
    if pathIsRelative pth then
      if pathHasDepth pth lvl.depth then .ok (pre ++ pth.segs)
      else .error .assertionError
    else .error .assertionError
  else .error .assertionError

/-- `DataSeries.path` on the unfolded chain: with a parent, the locator splits
at `len(locs) - nlocs` (`_root_locators`/`_self_locators`, which assert
`len(locs) >= nlocs`); the parent resolves the prefix. -/
def pathAux (lvl : DSLevel) : List DSLevel → List String → Except Err (List String)
  | [], locs => levelJoin lvl lvl.pre.segs locs
  | r :: rs, locs =>
    if lvl.nlocs ≤ locs.length then
      match pathAux r rs (locs.take (locs.length - lvl.nlocs)) with
      | .error e => .error e
      | .ok pre => levelJoin lvl pre (locs.drop (locs.length - lvl.nlocs))
    else .error .assertionError

/-- `DataSeries.path`. -/
def DataSeries.path (ds : DataSeries) (locs : List String) :
    Except Err (List String) :=
  pathAux ds.level ds.roots locs

/-- `DataSeries.exists`: does the directory at `path(locs)` exist? -/
def DataSeries.exists (ds : DataSeries) (locs : List String) (fs : FS) :
    Except Err Bool :=
  match ds.path locs with
  | .error e => .error e
  | .ok p => .ok (fs.isdir p)

/-- `DataSeries.remove`: only with the removability flag; a missing directory
is silently ignored (`if self.exists(locs): shutil.rmtree(pth)`). -/
def DataSeries.remove (ds : DataSeries) (locs : List String) (fs : FS) :
    Except Err Unit × FS :=
  if ds.level.removable then
    match ds.path locs with
    | .error e => (.error e, fs)
    | .ok p => if fs.isdir p then (.ok (), fs.rmtree p) else (.ok (), fs)
  else (.error .valueError, fs)

/-- `DataSeries.create` on the unfolded chain: first recursively create the
parent chain, then create this directory if absent and record the local
locator suffix in the locator file (when configured). -/
def createAux (lvl : DSLevel) : List DSLevel → List String → FS →
    Except Err Unit × FS
  | roots, locs, fs =>
    let step1 : Except Err Unit × FS :=
      match roots with
      | [] => (.ok (), fs)
      | r :: rs =>
        if lvl.nlocs ≤ locs.length then
          createAux r rs (locs.take (locs.length - lvl.nlocs)) fs
        else (.error .assertionError, fs)
    match step1 with
    | (.error e, fs1) => (.error e, fs1)
    | (.ok _, fs1) =>
      match DataSeries.exists ⟨lvl, roots⟩ locs fs1 with
      | .error e => (.error e, fs1)
      | .ok true => (.ok (), fs1)
      | .ok false =>
        match pathAux lvl roots locs with
        | .error e => (.error e, fs1)
        | .ok p =>
          match fs1.makedirs p with
          | .error e => (.error e, fs1)
          | .ok fs2 =>
            match lvl.loc_dfile with
            | none => (.ok (), fs2)
            | some df =>
              if lvl.nlocs ≤ locs.length then
                df.write (locs.drop (locs.length - lvl.nlocs)) p fs2
              else (.error .assertionError, fs2)

/-- `DataSeries.create`. -/
def DataSeries.create (ds : DataSeries) (locs : List String) (fs : FS) :
    Except Err Unit × FS :=
  createAux ds.level ds.roots locs fs

/-- Stable ascending insertion by path string (Python's `sorted` on the glob
results; entries are compared as their joined absolute path strings). -/
def insertLe (x : List String) : List (List String) → List (List String)
  | [] => [x]
  | y :: ys =>
    if charListLe (pathKey x).data (pathKey y).data then x :: y :: ys
    else y :: insertLe x ys

/-- Sort paths lexicographically by their path strings. -/
def sortPaths : List (List String) → List (List String)
  | [] => []
  | x :: xs => insertLe x (sortPaths xs)

/-- Model of `glob.glob(prefix/*/.../*)` filtered by `os.path.isdir`
(`DataSeries._existing_paths` body): directories exactly `depth` segments
below `pre` whose added segments are not hidden (a `*` pattern does not match
names starting with a dot), sorted by path string. -/
def globDirs (fs : FS) (pre : List String) (depth : Nat) : List (List String) :=
  sortPaths (fs.dirs.filter (fun d =>
    pre.isPrefixOf d && d.length == pre.length + depth &&
      (d.drop pre.length).all (fun s => !strIsHidden s)))

/-- The prefix resolution shared by `_existing_paths`: the own prefix, or
the parent's resolved path for the supplied root locators. -/
def DataSeries.resolvedPre (ds : DataSeries) (root_locs : List String) :
    Except Err (List String) :=
  match ds.root with
  | none => .ok ds.level.pre.segs
  | some r => r.path root_locs

/-- `DataSeries._existing_paths`: resolve the prefix and glob below it. -/
def DataSeries.existingPaths (ds : DataSeries) (root_locs : List String)
    (fs : FS) : Except Err (List (List String)) :=
  match ds.resolvedPre root_locs with
  | .error e => .error e
  | .ok pre => .ok (globDirs fs pre ds.level.depth)

/-- Read the recorded locator file in each directory
(`self.loc_dfile.read(pth)` over the filtered paths). -/
def readLocs (df : DataFile (List String)) (fs : FS) :
    List (List String) → Except Err (List (List String))
  | [] => .ok []
  | p :: ps =>
    match df.read p fs with
    | .error e => .error e
    | .ok l =>
      match readLocs df fs ps with
      | .error e => .error e
      | .ok ls => .ok (l :: ls)

/-- First-error concatenation of a list of enumeration results (the
`itertools.chain` expression of `DataSeries.existing`; the generator stops
at the first raising element). -/
def exceptConcat : List (Except Err (List (List String))) →
    Except Err (List (List String))
  | [] => .ok []
  | .error e :: _ => .error e
  | .ok l :: rest =>
    match exceptConcat rest with
    | .error e => .error e
    | .ok ls => .ok (l ++ ls)

/-- One unfolding of `DataSeries.existing` on the unfolded chain; `rec`
stands for the recursive calls (`self.root.existing(root_locs)` and the
union of `self.existing(root_locs_)` over the parent's results). -/
def existingStep
    (rec : DSLevel → List DSLevel → List String → Bool → FS →
      Except Err (List (List String)))
    (lvl : DSLevel) (roots : List DSLevel) (root_locs : List String)
    (relative : Bool) (fs : FS) : Except Err (List (List String)) :=
  if lvl.nlocs == 0 then
    match DataSeries.exists ⟨lvl, roots⟩ [] fs with
    | .error e => .error e
    | .ok true => .ok [[]]
    | .ok false => .ok []
  else
    match lvl.loc_dfile with
    | none => .error .valueError
    | some df =>
      let root_nlocs := sumNlocs roots
      if root_locs.length < root_nlocs then
        match roots with
        | [] => .error .valueError
        | r :: rs =>
          match rec r rs root_locs false fs with
          | .error e => .error e
          | .ok rls =>
            exceptConcat (rls.map (fun rl => rec lvl roots rl false fs))
      else
        if root_nlocs == root_locs.length then
          match DataSeries.existingPaths ⟨lvl, roots⟩ root_locs fs with
          | .error e => .error e
          | .ok pths =>
            match readLocs df fs (pths.filter (fun p => df.exists p fs)) with
            | .error e => .error e
            | .ok locs_lst =>
              if relative then .ok locs_lst
              else .ok (locs_lst.map (fun l => root_locs ++ l))
        else .error .assertionError

/-- Fuel-indexed iteration of `existingStep`: the Python recursion through
`self.existing`/`self.root.existing` terminates only because locator lists
read back from disk have the declared arities (on malformed states it can
recurse forever), so the embedding bounds the recursion depth explicitly. -/
def existingFuel : Nat → DSLevel → List DSLevel → List String → Bool → FS →
    Except Err (List (List String))
  | 0 => fun _ _ _ _ _ => .error .valueError
  | fuel + 1 => existingStep (existingFuel fuel)

/-- `DataSeries.existing`, with recursion depth sufficient for every state
whose recorded locator files decode to locators of the declared arities
(the fully-specified branch uses one step and no recursion). -/
def DataSeries.existing (ds : DataSeries) (root_locs : List String)
    (relative : Bool) (fs : FS) : Except Err (List (List String)) :=
  existingFuel (ds.roots.length + 2) ds.level ds.roots root_locs relative fs

/-- Model of `os.path.abspath` for already-normalized paths: resolve a
relative path against the working directory. -/
def abspath (cwd : List String) (p : PyPath) : PyPath :=
  ⟨true, if p.absolute then p.segs else cwd ++ p.segs⟩

/-- `DataSeries.__init__`: asserts that the supplied prefix is an existing
directory, then stores its absolute form; the chain of the optional
`root_ds` argument is unfolded into `roots`. -/
def DataSeries.init (cwd : List String) (pre : PyPath)
    (map_ : List String → PyPath) (nlocs depth : Nat)
    (loc_dfile : Option (DataFile (List String))) (root_ds : Option DataSeries)
    (removable : Bool) (fs : FS) : Except Err DataSeries :=
  if fs.isdir (abspath cwd pre).segs then
    .ok ⟨⟨abspath cwd pre, map_, nlocs, depth, loc_dfile, removable⟩,
      match root_ds with
      | none => []
      | some r => r.level :: r.roots⟩
  else .error .assertionError

/-- `DataSeriesFile` (the spec's FileBinding): a `DataFile` resolved through a
`DataSeries`. -/
structure DataSeriesFile (α : Type u) where
  dir : DataSeries
  file : DataFile α
  removable : Bool

/-- `DataSeriesFile.__init__`: always sets `removable = False`, with no
parameter to change it. -/
def DataSeriesFile.init {α : Type u} (ds : DataSeries) (dfile : DataFile α) :
    DataSeriesFile α :=
  { dir := ds, file := dfile, removable := false }

/-- `DataSeriesFile.path`. -/
def DataSeriesFile.path {α : Type u} (dsf : DataSeriesFile α)
    (locs : List String) : Except Err (List String) :=
  match dsf.dir.path locs with
  | .error e => .error e
  | .ok p => .ok (dsf.file.path p)

/-- `DataSeriesFile.write`. -/
def DataSeriesFile.write {α : Type u} (dsf : DataSeriesFile α) (val : α)
    (locs : List String) (fs : FS) : Except Err Unit × FS :=
  match dsf.dir.path locs with
  | .error e => (.error e, fs)
  | .ok p => dsf.file.write val p fs

/-- `DataSeriesFile.read`. -/
def DataSeriesFile.read {α : Type u} (dsf : DataSeriesFile α)
    (locs : List String) (fs : FS) : Except Err α :=
  match dsf.dir.path locs with
  | .error e => .error e
  | .ok p => dsf.file.read p fs

/-- `DataSeriesFile.remove`: only with the removability flag; `os.remove`
raises when the file is missing. -/
def DataSeriesFile.remove {α : Type u} (dsf : DataSeriesFile α)
    (locs : List String) (fs : FS) : Except Err Unit × FS :=
  if dsf.removable then
    match dsf.path locs with
    | .error e => (.error e, fs)
    | .ok p => fs.osRemove p
  else (.error .valueError, fs)

/-- `JSONObject` (the spec's DocumentField): a field name, an optional layer
qualifier (`json_prefix`/`json_layer`), and serializer/deserializer. The
reader is applied to whatever value sits under the field name in the parsed
document (Python functions are untyped), the writer produces the serialized
leaf string. -/
structure JSONObject (α : Type u) where
  name : String
  json_pre : List String
  json_layer : Option String
  removable : Bool
  writer_ : α → String
  reader_ : JVal → α

/-- `JSONObject.__init__`: `removable` is always `False`. The `json_layer`
is `some l` exactly when the Python attribute is truthy (a non-empty
string). -/
def JSONObject.init {α : Type u} (name : String) (json_pre : List String)
    (json_layer : Option String) (writer_ : α → String) (reader_ : JVal → α) :
    JSONObject α :=
  { name := name, json_pre := json_pre, json_layer := json_layer,
    removable := false, writer_ := writer_, reader_ := reader_ }

/-- `JSONObject._add_layer`: with a truthy layer, the key is prefixed by the
`json_prefix` segments and the layer marker. -/
def JSONObject.addLayer {α : Type u} (jo : JSONObject α) (key : List String) :
    List String :=
  match jo.json_layer with
  | some l => jo.json_pre ++ [l] ++ key
  | none => key

/-- The navigation loop shared by `JSONObject.exists` and `JSONObject._read`:
`for nested_key in key: if nested_key in keys: dct = dct[nested_key];
keys = dct.keys() else: exists = False`. On a miss the loop keeps scanning
the remaining segments against the same mapping; descending into a
non-mapping value raises (`.keys()` on a string). -/
def jnavLoop : List String → JVal → Bool → Except Err (JVal × Bool)
  | [], dct, ex => .ok (dct, ex)
  | k :: rest, JVal.obj es, ex =>
    match es.lookup k with
    | some (JVal.obj es') => jnavLoop rest (JVal.obj es') ex
    | some (JVal.str _) => .error .attributeError
    | none => jnavLoop rest (JVal.obj es) false
  | _ :: _, JVal.str _, _ => .error .attributeError

/-- `JSONObject.exists`: navigate, then check the field name at the final
mapping. -/
def JSONObject.existsAt {α : Type u} (jo : JSONObject α) (key : List String)
    (docPath : List String) (fs : FS) : Except Err Bool × FS :=
  let lkey := jo.addLayer key
  match readJson fs docPath with
  | (.error e, fs') => (.error e, fs')
  | (.ok jd, fs') =>
    match jnavLoop lkey jd true with
    | .error e => (.error e, fs')
    | .ok (dct, ex) =>
      if ex then
        match dct with
        | JVal.obj es => (.ok (es.lookup jo.name).isSome, fs')
        | JVal.str _ => (.error .attributeError, fs')
      else (.ok false, fs')

/-- `JSONObject._read`: same navigation; the deserialized leaf when the full
path and the field name resolve, `None` otherwise. -/
def JSONObject.readIn {α : Type u} (jo : JSONObject α) (key : List String)
    (jd : JVal) : Except Err (Option α) :=
  let lkey := jo.addLayer key
  match jnavLoop lkey jd true with
  | .error e => .error e
  | .ok (dct, ex) =>
    if ex then
      match dct with
      | JVal.obj es => .ok ((es.lookup jo.name).map jo.reader_)
      | JVal.str _ => .error .attributeError
    else .ok none

/-- `JSONObject.read`. -/
def JSONObject.read {α : Type u} (jo : JSONObject α) (key : List String)
    (docPath : List String) (fs : FS) : Except Err (Option α) × FS :=
  match readJson fs docPath with
  | (.error e, fs') => (.error e, fs')
  | (.ok jd, fs') => (jo.readIn key jd, fs')

/-- The loop of `JSONObject.read_all` over an already-read document. -/
def JSONObject.readFold {α : Type u} (jo : JSONObject α) (jd : JVal) :
    List (List String) → Except Err (List (Option α))
  | [] => .ok []
  | key :: rest =>
    match jo.readIn key jd with
    | .error e => .error e
    | .ok v =>
      match jo.readFold jd rest with
      | .error e => .error e
      | .ok vs => .ok (v :: vs)

/-- `JSONObject.read_all`: one document read, then the per-key loop. -/
def JSONObject.read_all {α : Type u} (jo : JSONObject α)
    (keys : List (List String)) (docPath : List String) (fs : FS) :
    Except Err (List (Option α)) × FS :=
  match readJson fs docPath with
  | (.error e, fs') => (.error e, fs')
  | (.ok jd, fs') => (jo.readFold jd keys, fs')

/-- The write descent of `JSONObject.write`/`write_all`: walk the layered
key, creating empty mappings for missing segments, and set the field name at
the final mapping; descending into a pre-existing non-mapping value raises. -/
def jvalSetPath (name : String) (val : String) : List String → JVal →
    Except Err JVal
  | [], JVal.obj es => .ok (JVal.obj (listSet es name (JVal.str val)))
  | [], JVal.str _ => .error .attributeError
  | k :: rest, JVal.obj es =>
    match (es.lookup k).getD (JVal.obj []) with
    | JVal.str _ => .error .attributeError
    | JVal.obj es' =>
      match jvalSetPath name val rest (JVal.obj es') with
      | .error e => .error e
      | .ok sub => .ok (JVal.obj (listSet es k sub))
  | _ :: _, JVal.str _ => .error .attributeError

/-- `JSONObject.write`: read the whole document, set the field along the
layered key, rewrite the whole document. -/
def JSONObject.write {α : Type u} (jo : JSONObject α) (val : α)
    (key : List String) (docPath : List String) (fs : FS) :
    Except Err Unit × FS :=
  let lkey := jo.addLayer key
  match readJson fs docPath with
  | (.error e, fs') => (.error e, fs')
  | (.ok jd, fs') =>
    match jvalSetPath jo.name (jo.writer_ val) lkey jd with
    | .error e => (.error e, fs')
    | .ok jd' => (.ok (), writeJson fs' docPath jd')

/-- The in-memory loop of `JSONObject.write_all` over the zipped
key/value pairs (each key gets the layer prefix). -/
def JSONObject.writeFold {α : Type u} (jo : JSONObject α) :
    List (List String × α) → JVal → Except Err JVal
  | [], jd => .ok jd
  | (key, val) :: rest, jd =>
    match jvalSetPath jo.name (jo.writer_ val) (jo.addLayer key) jd with
    | .error e => .error e
    | .ok jd' => jo.writeFold rest jd'

/-- `JSONObject.write_all`: one document read, the in-memory loop over
`zip(all_keys, vals)`, one document write. -/
def JSONObject.write_all {α : Type u} (jo : JSONObject α) (vals : List α)
    (all_keys : List (List String)) (docPath : List String) (fs : FS) :
    Except Err Unit × FS :=
  match readJson fs docPath with
  | (.error e, fs') => (.error e, fs')
  | (.ok jd, fs') =>
    match jo.writeFold (all_keys.zip vals) jd with
    | .error e => (.error e, fs')
    | .ok jd' => (.ok (), writeJson fs' docPath jd')

/-- `_remove_layer_from_path`: drop the final path segment when it equals the
layer marker. -/
def removeLayerFromPath (p : List String) (layer : String) : List String :=
  match p.getLast? with
  | some t => if t == layer then p.dropLast else p
  | none => p

/-- `DataSeries.json_path`: the reserved document file name (`self.JSON =
'db.json'`) under the prefix (the root's resolved path when chained), with
the layer segment stripped when a truthy layer is supplied. -/
def DataSeries.json_path (ds : DataSeries) (json_layer : Option String) :
    Except Err (List String) :=
  match (match ds.root with
         | none => Except.ok ds.level.pre.segs
         | some r => r.path []) with
  | .error e => .error e
  | .ok pre =>
    let pre := match json_layer with
      | some l => removeLayerFromPath pre l
      | none => pre
    .ok (pre ++ ["db.json"])

/-- `DataSeries.json_exists`. -/
def DataSeries.json_exists (ds : DataSeries) (json_layer : Option String)
    (fs : FS) : Except Err Bool :=
  match ds.json_path json_layer with
  | .error e => .error e
  | .ok p => .ok (fs.isfile p)

/-- `DataSeries.json_create`: writes an empty document — note that the source
guards with `self.json_exists()` (no layer) while writing to
`json_path(json_layer)`. -/
def DataSeries.json_create (ds : DataSeries) (json_layer : Option String)
    (fs : FS) : Except Err Unit × FS :=
  match ds.json_exists none fs with
  | .error e => (.error e, fs)
  | .ok true => (.ok (), fs)
  | .ok false =>
    match ds.json_path json_layer with
    | .error e => (.error e, fs)
    | .ok p => (.ok (), writeJson fs p (JVal.obj []))

/-- `DataSeries.json_existing`: the source immediately overwrites the `locs`
argument with `[]` (so the nested-descent loop below it is dead and the
prefix key is ignored), builds a list filtered by `isinstance(dct[key],
dict)` but then discards it, and returns `tuple([key] for key in keys)` —
every top-level key of the document as a singleton, mappings and leaves
alike. -/
def DataSeries.json_existing (ds : DataSeries) (locs : List String)
    (json_layer : Option String) (fs : FS) :
    Except Err (List (List String)) × FS :=
  match ds.json_exists json_layer fs with
  | .error e => (.error e, fs)
  | .ok false => (.ok [], fs)
  | .ok true =>
    match ds.json_path json_layer with
    | .error e => (.error e, fs)
    | .ok p =>
      match readJson fs p with
      | (.error e, fs') => (.error e, fs')
      | (.ok (JVal.obj es), fs') => (.ok (es.map (fun kv => [kv.1])), fs')
      | (.ok (JVal.str _), fs') => (.error .attributeError, fs')

/-- `DataSeries._map`: a truthy locator list is mapped to the single-segment
key holding the rendered mapped path. -/
def DataSeries.mapKey (ds : DataSeries) (locs : List String) : List String :=
  if locs.isEmpty then locs else [(ds.level.map_ locs).render]

/-- `JSONEntry`: a `JSONObject` bound to a `DataSeries`' document file. -/
structure JSONEntry (α : Type u) where
  js : DataSeries
  json : JSONObject α
  removable : Bool

/-- `JSONEntry.__init__`: `removable` is always `False`. -/
def JSONEntry.init {α : Type u} (js : DataSeries) (jobject : JSONObject α) :
    JSONEntry α :=
  { js := js, json := jobject, removable := false }

/-- `JSONEntry.exists`: map the key through the series (when `mapping`) and
test it against the document file. -/
def JSONEntry.existsE {α : Type u} (e : JSONEntry α) (key : List String)
    (mapping : Bool) (fs : FS) : Except Err Bool × FS :=
  match e.js.json_path e.json.json_layer with
  | .error er => (.error er, fs)
  | .ok p =>
    e.json.existsAt (if mapping then e.js.mapKey key else key) p fs

/-- `JSONEntry.existing`: delegates to `DataSeries.json_existing` with the
layered key (which that function then ignores). -/
def JSONEntry.existing {α : Type u} (e : JSONEntry α) (key : List String)
    (fs : FS) : Except Err (List (List String)) × FS :=
  e.js.json_existing (e.json.addLayer key) e.json.json_layer fs

/-- The document-creation guard shared by `JSONEntry.write` and
`JSONEntry.write_all`: `if not self.js.json_exists(layer):
self.js.json_create(layer)`. -/
def JSONEntry.ensureDoc {α : Type u} (e : JSONEntry α) (fs : FS) :
    Except Err Unit × FS :=
  match e.js.json_exists e.json.json_layer fs with
  | .error er => (.error er, fs)
  | .ok true => (.ok (), fs)
  | .ok false => e.js.json_create e.json.json_layer fs

/-- `JSONEntry.write`. -/
def JSONEntry.write {α : Type u} (e : JSONEntry α) (val : α)
    (key : List String) (mapping : Bool) (fs : FS) : Except Err Unit × FS :=
  match e.ensureDoc fs with
  | (.error er, fs1) => (.error er, fs1)
  | (.ok _, fs1) =>
    match e.js.json_path e.json.json_layer with
    | .error er => (.error er, fs1)
    | .ok p =>
      e.json.write val (if mapping then e.js.mapKey key else key) p fs1

/-- `JSONEntry.write_all`: the same creation guard, all keys mapped, then one
batched document write. -/
def JSONEntry.write_all {α : Type u} (e : JSONEntry α) (vals : List α)
    (keys : List (List String)) (mapping : Bool) (fs : FS) :
    Except Err Unit × FS :=
  match e.ensureDoc fs with
  | (.error er, fs1) => (.error er, fs1)
  | (.ok _, fs1) =>
    match e.js.json_path e.json.json_layer with
    | .error er => (.error er, fs1)
    | .ok p =>
      e.json.write_all vals
        (if mapping then keys.map e.js.mapKey else keys) p fs1

/-- `JSONEntry.read`: `None` unless `exists(key)`; then the single-key
document read. -/
def JSONEntry.read {α : Type u} (e : JSONEntry α) (key : List String)
    (mapping : Bool) (fs : FS) : Except Err (Option α) × FS :=
  match e.existsE key mapping fs with
  | (.error er, fs1) => (.error er, fs1)
  | (.ok false, fs1) => (.ok none, fs1)
  | (.ok true, fs1) =>
    match e.js.json_path e.json.json_layer with
    | .error er => (.error er, fs1)
    | .ok p =>
      e.json.read (if mapping then e.js.mapKey key else key) p fs1

/-- The filtering loop of `JSONEntry.read_all`: keep (mapped) keys whose
`exists` check passes, in order. -/
def JSONEntry.gatherKeys {α : Type u} (e : JSONEntry α) (mapping : Bool) :
    List (List String) → FS → Except Err (List (List String)) × FS
  | [], fs => (.ok [], fs)
  | key :: rest, fs =>
    match e.existsE key mapping fs with
    | (.error er, fs1) => (.error er, fs1)
    | (.ok b, fs1) =>
      match e.gatherKeys mapping rest fs1 with
      | (.error er, fs2) => (.error er, fs2)
      | (.ok nk, fs2) =>
        if b then
          (.ok ((if mapping then e.js.mapKey key else key) :: nk), fs2)
        else (.ok nk, fs2)

/-- `JSONEntry.read_all`: filter the keys by existence, then one batched
document read over the surviving keys (none when the filter is empty). -/
def JSONEntry.read_all {α : Type u} (e : JSONEntry α)
    (keys : List (List String)) (mapping : Bool) (fs : FS) :
    Except Err (List (Option α)) × FS :=
  match e.gatherKeys mapping keys fs with
  | (.error er, fs1) => (.error er, fs1)
  | (.ok new_keys, fs1) =>
    if new_keys.isEmpty then (.ok [], fs1)
    else
      match e.js.json_path e.json.json_layer with
      | .error er => (.error er, fs1)
      | .ok p => e.json.read_all new_keys p fs1

/-! ## Specification-side definitions

These phrase properties in the spec's words, for comparison with the
source-translated operations above. -/

/-- Spec-phrased enumeration (for comparison with `DataSeries.existing` in
the fully-specified case): the depth-deep non-hidden directory entries under
the resolved prefix, sorted lexicographically by path string; for each, the
locator value read back from its recorded locator file, skipping entries
whose locator file is missing; `root_locs` prepended unless `relative`. -/
def specExisting (depth : Nat) (df : DataFile (List String))
    (pre : List String) (root_locs : List String) (relative : Bool)
    (fs : FS) : Except Err (List (List String)) :=
  let entries := sortPaths (fs.dirs.filter (fun d =>
    pre.isPrefixOf d && d.length == pre.length + depth &&
      (d.drop pre.length).all (fun s => !strIsHidden s)))
  match readLocs df fs (entries.filter (fun p => df.exists p fs)) with
  | .error e => .error e
  | .ok ls =>
    if relative then .ok ls else .ok (ls.map (fun l => root_locs ++ l))

/-- Writing each (value, key) pair in order through the single-key
`JSONEntry.write` (the spec side of the batching equivalence). -/
def JSONEntry.seqWrites {α : Type u} (e : JSONEntry α) :
    List (List String × α) → Bool → FS → Except Err Unit × FS
  | [], _, fs => (.ok (), fs)
  | (key, val) :: rest, mapping, fs =>
    match e.write val key mapping fs with
    | (.error er, fs1) => (.error er, fs1)
    | (.ok _, fs1) => e.seqWrites rest mapping fs1

/-- Proper navigation through a nested document: descend segment by
segment, failing as soon as a segment is missing or a non-mapping value is
hit. -/
def properResolve : JVal → List String → Option JVal
  | d, [] => some d
  | JVal.obj es, k :: rest =>
    match es.lookup k with
    | some v => properResolve v rest
    | none => none
  | JVal.str _, _ :: _ => none

/-- A key's field value under proper navigation: the key path must resolve
to a mapping containing the field name. A `none` result is the spec's
"key path not populated" (an unset key). -/
def properLookup (d : JVal) (key : List String) (name : String) : Option JVal :=
  match properResolve d key with
  | some (JVal.obj es) => es.lookup name
  | _ => none

/-- Safety of the source's quirky navigation loop on a document: every
segment that is found (by the loop's own wandering descent) refers to a
nested mapping, so `.keys()` is never taken on a leaf string. -/
def navSafe : List String → JVal → Bool
  | [], _ => true
  | k :: rest, JVal.obj es =>
    match es.lookup k with
    | some (JVal.obj es') => navSafe rest (JVal.obj es')
    | some (JVal.str _) => false
    | none => navSafe rest (JVal.obj es)
  | _ :: _, JVal.str _ => false

/-- The boolean outcome of a single `JSONEntry.exists` check (`false` when
the check raises), used to phrase what `read_all` keeps. -/
def JSONEntry.exB {α : Type u} (e : JSONEntry α) (key : List String)
    (mapping : Bool) (fs : FS) : Bool :=
  match (e.existsE key mapping fs).1 with
  | .ok b => b
  | .error _ => false

/-- The optional value of a single `JSONEntry.read` (`none` when the read
raises), used to phrase what `read_all` returns per key. -/
def JSONEntry.rdO {α : Type u} (e : JSONEntry α) (key : List String)
    (mapping : Bool) (fs : FS) : Option α :=
  match (e.read key mapping fs).1 with
  | .ok o => o
  | .error _ => none

/-- The predicate that every level of the chain is created: the path
resolves and its directory exists, recursively up the parent chain with the
split root locators. -/
def chainOKAux (lvl : DSLevel) : List DSLevel → List String → FS → Prop
  | [], locs, fs =>
    ∃ p, pathAux lvl [] locs = .ok p ∧ fs.isdir p = true
  | r :: rs, locs, fs =>
    (∃ p, pathAux lvl (r :: rs) locs = .ok p ∧ fs.isdir p = true) ∧
      lvl.nlocs ≤ locs.length ∧
      chainOKAux r rs (locs.take (locs.length - lvl.nlocs)) fs

/-- Every directory of the chain addressed by `locs` exists in `fs`. -/
def DataSeries.chainOK (ds : DataSeries) (locs : List String) (fs : FS) :
    Prop :=
  chainOKAux ds.level ds.roots locs fs

/-! ## Shared lemmas -/

theorem listSet_lookup_self {κ : Type u} {ν : Type v} [BEq κ] [LawfulBEq κ]
    (l : List (κ × ν)) (k : κ) (v : ν) :
    (listSet l k v).lookup k = some v := by
  induction l with
  | nil => simp [listSet, List.lookup]
  | cons hd tl ih =>
    obtain ⟨k', v'⟩ := hd
    by_cases h : k' == k
    · simp [listSet, h, List.lookup]
    · simp only [listSet, h, if_false, Bool.false_eq_true]
      have h' : (k == k') = false := by
        cases hk : k == k'
        · rfl
        · exact absurd (by simp [beq_iff_eq] at hk ⊢; exact hk.symm) (by
            intro hc
            exact absurd (by simp [hc] : (k' == k) = true) (by simp [h]))
      simp [List.lookup, h', ih]

theorem listSet_lookup_ne {κ : Type u} {ν : Type v} [BEq κ] [LawfulBEq κ]
    (l : List (κ × ν)) (k : κ) (v : ν) (k₂ : κ) (h : (k₂ == k) = false) :
    (listSet l k v).lookup k₂ = l.lookup k₂ := by
  induction l with
  | nil => simp [listSet, List.lookup, h]
  | cons hd tl ih =>
    obtain ⟨k', v'⟩ := hd
    by_cases hk : k' == k
    · have : k' = k := by simpa using hk
      subst this
      simp [listSet, List.lookup, h]
    · simp [listSet, hk, List.lookup, ih]

theorem listSet_listSet {κ : Type u} {ν : Type v} [BEq κ] [LawfulBEq κ]
    (l : List (κ × ν)) (k : κ) (v w : ν) :
    listSet (listSet l k v) k w = listSet l k w := by
  induction l with
  | nil => simp [listSet]
  | cons hd tl ih =>
    obtain ⟨k', v'⟩ := hd
    by_cases hk : k' == k
    · simp [listSet, hk]
    · simp [listSet, hk, ih]

/-! ## C9: removability flags are constructed unset -/

/-- C9: `DataFile.__init__` and `DataSeriesFile.__init__` always set the
removability flag to false (and expose no parameter for it), so `remove` on
any freshly constructed FileSlot or FileBinding raises the not-removable
error, for every argument and filesystem state, leaving the state
unchanged. -/
theorem init_not_removable :
    (∀ (α : Type) (name : String) (w : α → String) (r : String → α)
        (dirPth : List String) (fs : FS),
      (DataFile.init name w r).remove dirPth fs = (.error .valueError, fs) ∧
      (DataFile.init name w r).removable = false) ∧
    (∀ (α : Type) (ds : DataSeries) (dfile : DataFile α)
        (locs : List String) (fs : FS),
      (DataSeriesFile.init ds dfile).remove locs fs = (.error .valueError, fs) ∧
      (DataSeriesFile.init ds dfile).removable = false) := by
  constructor
  · intro α name w r dirPth fs
    exact ⟨rfl, rfl⟩
  · intro α ds dfile locs fs
    exact ⟨rfl, rfl⟩

/-! ## C10: construction requires an existing directory, stores it absolute -/

/-- C10: `DataSeries.__init__` fails unless the supplied base prefix is an
existing directory, and the stored prefix is the normalized absolute form of
the argument (so every constructed AddressSpace carries an absolute base
prefix that existed at construction time). -/
theorem dataSeries_init_spec :
    ∀ (cwd : List String) (pre : PyPath) (map_ : List String → PyPath)
      (nlocs depth : Nat) (ldf : Option (DataFile (List String)))
      (root_ds : Option DataSeries) (rm : Bool) (fs : FS),
      (fs.isdir (abspath cwd pre).segs = false →
        DataSeries.init cwd pre map_ nlocs depth ldf root_ds rm fs =
          .error .assertionError) ∧
      (∀ ds, DataSeries.init cwd pre map_ nlocs depth ldf root_ds rm fs = .ok ds →
        ds.level.pre = abspath cwd pre ∧ ds.level.pre.absolute = true ∧
        fs.isdir ds.level.pre.segs = true) := by
  intro cwd pre map_ nlocs depth ldf root_ds rm fs
  constructor
  · intro h
    simp [DataSeries.init, h]
  · intro ds h
    by_cases hd : fs.isdir (abspath cwd pre).segs
    · simp only [DataSeries.init, hd, if_true, Except.ok.injEq] at h
      refine ⟨?_, ?_, ?_⟩
      · rw [← h]
      · rw [← h]; rfl
      · rw [← h]; exact hd
    · simp [DataSeries.init, hd] at h

/-- The concrete `DataSeries` produced by the C10 witness construction. -/
def c10ds : DataSeries :=
  ⟨⟨⟨true, ["p"]⟩, fun ls => ⟨false, ls⟩, 1, 1, none, false⟩, []⟩

/-- C10 witness: a concrete construction over an existing directory. -/
theorem dataSeries_init_spec_witness :
    DataSeries.init [] ⟨true, ["p"]⟩ (fun ls => ⟨false, ls⟩) 1 1 none
        none false ⟨[["p"]], [], [], 0, 0⟩ = .ok c10ds ∧
      (c10ds.level.pre = abspath [] ⟨true, ["p"]⟩ ∧
        c10ds.level.pre.absolute = true ∧
        FS.isdir ⟨[["p"]], [], [], 0, 0⟩ c10ds.level.pre.segs = true) :=
  ⟨rfl,
    (dataSeries_init_spec [] ⟨true, ["p"]⟩ (fun ls => ⟨false, ls⟩) 1 1 none
      none false ⟨[["p"]], [], [], 0, 0⟩).2 c10ds rfl⟩

/-! ## C7: removal failure modes -/

/-- C7 (amended): with the removability flag unset, `remove` raises the
not-removable error and leaves the state unchanged, for AddressSpaces and
FileSlots alike; with the flag set, a FileSlot remove on a missing file
raises the missing-resource error, while an AddressSpace remove on a missing
directory silently succeeds without touching the filesystem. -/
theorem remove_flag_spec :
    (∀ (ds : DataSeries) (locs : List String) (fs : FS),
      ds.level.removable = false →
      ds.remove locs fs = (.error .valueError, fs)) ∧
    (∀ (α : Type) (df : DataFile α) (dirPth : List String) (fs : FS),
      df.removable = false →
      df.remove dirPth fs = (.error .valueError, fs)) ∧
    (∀ (α : Type) (df : DataFile α) (dirPth : List String) (fs : FS),
      df.removable = true → fs.isfile (df.path dirPth) = false →
      df.remove dirPth fs = (.error .fileNotFound, fs)) ∧
    (∀ (ds : DataSeries) (locs : List String) (p : List String) (fs : FS),
      ds.level.removable = true → ds.path locs = .ok p →
      fs.isdir p = false → ds.remove locs fs = (.ok (), fs)) := by
  refine ⟨?_, ?_, ?_, ?_⟩
  · intro ds locs fs h
    simp [DataSeries.remove, h]
  · intro α df dirPth fs h
    simp [DataFile.remove, h]
  · intro α df dirPth fs h hm
    simp [DataFile.remove, h, FS.osRemove, hm]
  · intro ds locs p fs h hp hd
    simp [DataSeries.remove, h, hp, hd]

/-- Concrete removable `DataSeries` for the C7 instances. -/
def c7ds : DataSeries :=
  ⟨⟨⟨true, ["p"]⟩, fun ls => ⟨false, ls⟩, 1, 1, none, true⟩, []⟩

/-- Concrete filesystem for the C7 instances: only the base prefix exists. -/
def c7fs : FS := ⟨[["p"]], [], [], 0, 0⟩

/-- C7 witness: the four amended cases at concrete inputs. -/
theorem remove_flag_spec_witness :
    ((⟨⟨⟨true, ["p"]⟩, fun ls => ⟨false, ls⟩, 1, 1, none, false⟩, []⟩ :
        DataSeries).remove ["a"] c7fs = (.error .valueError, c7fs)) ∧
    ((DataFile.init "f" id id).remove ["p"] c7fs = (.error .valueError, c7fs)) ∧
    (({ DataFile.init "f" id id with removable := true }).remove ["p"] c7fs =
      (.error .fileNotFound, c7fs)) ∧
    (c7ds.remove ["a"] c7fs = (.ok (), c7fs)) :=
  ⟨remove_flag_spec.1 _ ["a"] c7fs rfl,
    remove_flag_spec.2.1 String _ ["p"] c7fs rfl,
    remove_flag_spec.2.2.1 String _ ["p"] c7fs rfl rfl,
    remove_flag_spec.2.2.2 c7ds ["a"] ["p", "a"] c7fs rfl rfl rfl⟩

/-- C7 counterexample: with the removability flag set, an AddressSpace
`remove` whose target directory does not exist returns successfully and
leaves the filesystem unchanged, instead of failing with a missing-resource
error as claimed. -/
theorem dataSeries_remove_missing_is_silent :
    c7ds.level.removable = true ∧ c7fs.isdir ["p", "a"] = false ∧
    c7ds.remove ["a"] c7fs = (.ok (), c7fs) :=
  ⟨rfl, rfl, rfl⟩

/-! ## C2: `json_existing` ignores its prefix key and keeps leaves -/

/-- The document used for the C2 failing input: under the top level, `"a"`
is a nested mapping and `"b"` is a leaf value. -/
def c2doc : JVal :=
  JVal.obj [("a", JVal.obj [("f", JVal.str "1")]), ("b", JVal.str "leaf")]

/-- Concrete series, field and state for C2. -/
def c2ds : DataSeries :=
  ⟨⟨⟨true, ["p"]⟩, fun ls => ⟨false, ls⟩, 1, 1, none, false⟩, []⟩

/-- The C2 document field (no layering). -/
def c2e : JSONEntry String :=
  JSONEntry.init c2ds
    (JSONObject.init "f" [] none id
      (fun j => match j with | JVal.str s => s | JVal.obj _ => ""))

/-- The C2 filesystem: the document file holds `c2doc`. -/
def c2fs : FS := ⟨[["p"]], [], [(["p", "db.json"], c2doc)], 0, 0⟩

/-- C2 evaluation at the failing input: `existing(("a",))` returns every
top-level key of the document as a singleton — it ignores the supplied
prefix key (the result is not the children of `"a"`) and includes the leaf
entry `"b"` even though `"b"` is not a nested mapping. -/
theorem json_existing_at_failing_input :
    (c2e.existing ["a"] c2fs).1 = .ok [["a"], ["b"]] ∧
    properResolve c2doc ["b"] = some (JVal.str "leaf") ∧
    properResolve c2doc ["a", "f"] = some (JVal.str "1") :=
  ⟨rfl, rfl, rfl⟩

/-! ## C6: chained path resolution splits at the cumulative parent arity -/

/-- C6: for a chained AddressSpace, `path` splits the locator into a root
prefix of length equal to the parent chain's cumulative arity and a local
suffix of length equal to this level's arity, and returns the parent's
resolved path for the prefix joined with this level's mapped relative path
for the suffix. -/
theorem dataSeries_path_chain_split :
    ∀ (ds : DataSeries) (r : DSLevel) (rs : List DSLevel)
      (locs : List String) (pre : List String),
      ds.roots = r :: rs →
      locs.length = ds.level.nlocs + ds.rootLocatorCount →
      DataSeries.path ⟨r, rs⟩ (locs.take ds.rootLocatorCount) = .ok pre →
      pathIsRelative (ds.level.map_ (locs.drop ds.rootLocatorCount)) = true →
      pathHasDepth (ds.level.map_ (locs.drop ds.rootLocatorCount))
        ds.level.depth = true →
      ds.path locs =
        .ok (pre ++ (ds.level.map_ (locs.drop ds.rootLocatorCount)).segs) := by
  intro ds r rs locs pre hroots hL hroot hrel hdep
  obtain ⟨lvl, roots⟩ := ds
  simp only at hroots
  subst hroots
  simp only [DataSeries.rootLocatorCount] at hL hroot hrel hdep ⊢
  simp only [DataSeries.path] at hroot ⊢
  unfold pathAux
  have h1 : lvl.nlocs ≤ locs.length := by omega
  rw [if_pos h1]
  have h2 : locs.length - lvl.nlocs = sumNlocs (r :: rs) := by omega
  rw [h2, hroot]
  unfold levelJoin
  have h3 : (locs.drop (sumNlocs (r :: rs))).length = lvl.nlocs := by
    simp only [List.length_drop]
    omega
  rw [h3]
  simp [hrel, hdep]

/-- The root level for the C6 witness: arity 2, depth 2, identity-style
mapping. -/
def c6root : DSLevel := ⟨⟨true, ["P"]⟩, fun ls => ⟨false, ls⟩, 2, 2, none, false⟩

/-- The chained child for the C6 witness: arity 1, depth 1. -/
def c6child : DataSeries :=
  ⟨⟨⟨true, ["Q"]⟩, fun ls => ⟨false, ls⟩, 1, 1, none, false⟩, [c6root]⟩

/-- C6 witness: the arity-2 root / arity-1 child instance of the split. -/
theorem dataSeries_path_chain_split_witness :
    c6child.path ["a", "b", "c"] =
      .ok (["P", "a", "b"] ++
        (c6child.level.map_ (["a", "b", "c"].drop c6child.rootLocatorCount)).segs) ∧
    DataSeries.path ⟨c6root, []⟩
      (["a", "b", "c"].take c6child.rootLocatorCount) = .ok ["P", "a", "b"] :=
  ⟨dataSeries_path_chain_split c6child c6root [] ["a", "b", "c"]
    ["P", "a", "b"] rfl rfl rfl rfl rfl, rfl⟩

/-! ## Lemmas about `create` and the chain invariant -/

theorem levelJoin_ok_length {lvl : DSLevel} {pre locs : List String}
    {p : List String} (h : levelJoin lvl pre locs = .ok p) :
    locs.length = lvl.nlocs := by
  unfold levelJoin at h
  by_cases hl : locs.length == lvl.nlocs
  · exact beq_iff_eq.mp hl
  · simp [hl] at h

theorem pathAux_cons_le {lvl r : DSLevel} {rs : List DSLevel}
    {locs : List String} {p : List String}
    (h : pathAux lvl (r :: rs) locs = .ok p) : lvl.nlocs ≤ locs.length := by
  unfold pathAux at h
  by_cases hle : lvl.nlocs ≤ locs.length
  · exact hle
  · simp [hle] at h

theorem setFile_dirs (fs : FS) (p : List String) (s : String) :
    (fs.setFile p s).dirs = fs.dirs := rfl

theorem dataFile_write_dirs {α : Type u} (df : DataFile α) (v : α)
    (d : List String) (fs : FS) : ((df.write v d fs).2).dirs = fs.dirs := by
  unfold DataFile.write
  by_cases h : fs.pathExists d
  · simp [h, setFile_dirs]
  · simp [h]

theorem makedirs_mono {fs fs2 : FS} {p : List String}
    (h : fs.makedirs p = .ok fs2) :
    ∀ d, fs.isdir d = true → fs2.isdir d = true := by
  intro d hd
  unfold FS.makedirs at h
  by_cases h0 : p.isEmpty
  · simp [h0] at h
  · by_cases h1 : fs.isdir p
    · simp [h0, h1] at h
    · simp only [h0, h1, Bool.false_eq_true, if_false, Except.ok.injEq] at h
      rw [← h]
      have hd' : d ∈ fs.dirs := by simpa [FS.isdir] using hd
      simp [FS.isdir, hd']

theorem makedirs_isdir_self {fs fs2 : FS} {p : List String}
    (h : fs.makedirs p = .ok fs2) : fs2.isdir p = true := by
  unfold FS.makedirs at h
  by_cases h0 : p.isEmpty
  · simp [h0] at h
  · by_cases h1 : fs.isdir p
    · simp [h0, h1] at h
    · simp only [h0, h1, Bool.false_eq_true, if_false, Except.ok.injEq] at h
      rw [← h]
      have hp : 0 < p.length := by
        cases p with
        | nil => simp at h0
        | cons a as => simp
      have hmem : p ∈ fs.dirs ++ ((List.range p.length).map
          (fun i => p.take (i + 1))).filter (fun q => !fs.isdir q) := by
        refine List.mem_append.mpr (Or.inr ?_)
        refine List.mem_filter.mpr ⟨?_, ?_⟩
        · refine List.mem_map.mpr ⟨p.length - 1, ?_, ?_⟩
          · simp only [List.mem_range]
            omega
          · have h2 : p.length - 1 + 1 = p.length := by omega
            rw [h2, List.take_length]
        · simp [h1]
      simpa [FS.isdir] using hmem

theorem chainOKAux_mono :
    ∀ (roots : List DSLevel) (lvl : DSLevel) (locs : List String) (fs fs' : FS),
      (∀ d, fs.isdir d = true → fs'.isdir d = true) →
      chainOKAux lvl roots locs fs → chainOKAux lvl roots locs fs' := by
  intro roots
  induction roots with
  | nil =>
    intro lvl locs fs fs' hmono hok
    obtain ⟨p, hp, hd⟩ := hok
    exact ⟨p, hp, hmono p hd⟩
  | cons r rs ih =>
    intro lvl locs fs fs' hmono hok
    obtain ⟨⟨p, hp, hd⟩, hle, hroot⟩ := hok
    exact ⟨⟨p, hp, hmono p hd⟩, hle, ih r _ fs fs' hmono hroot⟩

theorem chainOKAux_exists {lvl : DSLevel} {roots : List DSLevel}
    {locs : List String} {fs : FS} (h : chainOKAux lvl roots locs fs) :
    DataSeries.exists ⟨lvl, roots⟩ locs fs = .ok true := by
  cases roots with
  | nil =>
    obtain ⟨p, hp, hd⟩ := h
    simp [DataSeries.exists, DataSeries.path, hp, hd]
  | cons r rs =>
    obtain ⟨⟨p, hp, hd⟩, _, _⟩ := h
    simp [DataSeries.exists, DataSeries.path, hp, hd]

theorem createAux_ok_chainOK :
    ∀ (roots : List DSLevel) (lvl : DSLevel) (locs : List String) (fs fs' : FS),
      createAux lvl roots locs fs = (.ok (), fs') →
      chainOKAux lvl roots locs fs' := by
  intro roots
  induction roots with
  | nil =>
    intro lvl locs fs fs' h
    unfold createAux at h
    simp only at h
    rcases hpath : pathAux lvl [] locs with e | p
    · simp [DataSeries.exists, DataSeries.path, hpath] at h
    · simp only [DataSeries.exists, DataSeries.path, hpath] at h
      by_cases hd : fs.isdir p
      · simp only [hd, Prod.mk.injEq] at h
        exact ⟨p, hpath, h.2 ▸ hd⟩
      · simp only [hd, Bool.false_eq_true] at h
        rcases hmk : fs.makedirs p with e | fs2
        · simp [hmk] at h
        · simp only [hmk] at h
          have hdir2 : fs2.isdir p = true := makedirs_isdir_self hmk
          cases hdf : lvl.loc_dfile with
          | none =>
            simp only [hdf, Prod.mk.injEq] at h
            exact ⟨p, hpath, h.2 ▸ hdir2⟩
          | some df =>
            simp only [hdf] at h
            have hlen : lvl.nlocs ≤ locs.length :=
              Nat.le_of_eq (levelJoin_ok_length hpath).symm
            simp only [hlen, if_true] at h
            rcases hw : df.write (locs.drop (locs.length - lvl.nlocs)) p fs2
              with ⟨rw, fsw⟩
            rw [hw] at h
            cases rw with
            | error e => simp at h
            | ok _ =>
              simp only [Prod.mk.injEq] at h
              refine ⟨p, hpath, ?_⟩
              have : fsw.dirs = fs2.dirs := by
                have := dataFile_write_dirs df
                  (locs.drop (locs.length - lvl.nlocs)) p fs2
                rw [hw] at this
                exact this
              rw [← h.2]
              simp only [FS.isdir] at hdir2 ⊢
              rw [this]
              exact hdir2
  | cons r rs ih =>
    intro lvl locs fs fs' h
    unfold createAux at h
    simp only at h
    by_cases hle : lvl.nlocs ≤ locs.length
    · simp only [hle, if_true] at h
      rcases hc : createAux r rs (locs.take (locs.length - lvl.nlocs)) fs
        with ⟨rc, fs1⟩
      rw [hc] at h
      cases rc with
      | error e => simp at h
      | ok _ =>
        simp only at h
        have hroot1 : chainOKAux r rs (locs.take (locs.length - lvl.nlocs)) fs1 :=
          ih r _ fs fs1 (by rw [hc])
        rcases hpath : pathAux lvl (r :: rs) locs with e | p
        · simp [DataSeries.exists, DataSeries.path, hpath] at h
        · simp only [DataSeries.exists, DataSeries.path, hpath] at h
          by_cases hd : fs1.isdir p
          · simp only [hd, Prod.mk.injEq] at h
            exact ⟨⟨p, hpath, h.2 ▸ hd⟩, hle, h.2 ▸ hroot1⟩
          · simp only [hd, Bool.false_eq_true] at h
            rcases hmk : fs1.makedirs p with e | fs2
            · simp [hmk] at h
            · simp only [hmk] at h
              have hdir2 : fs2.isdir p = true := makedirs_isdir_self hmk
              have hroot2 : chainOKAux r rs
                  (locs.take (locs.length - lvl.nlocs)) fs2 :=
                chainOKAux_mono rs r _ fs1 fs2 (makedirs_mono hmk) hroot1
              cases hdf : lvl.loc_dfile with
              | none =>
                simp only [hdf, Prod.mk.injEq] at h
                exact ⟨⟨p, hpath, h.2 ▸ hdir2⟩, hle, h.2 ▸ hroot2⟩
              | some df =>
                simp only [hdf, hle, if_true] at h
                rcases hw : df.write (locs.drop (locs.length - lvl.nlocs)) p fs2
                  with ⟨rw, fsw⟩
                rw [hw] at h
                cases rw with
                | error e => simp at h
                | ok _ =>
                  simp only [Prod.mk.injEq] at h
                  have hdirs : fsw.dirs = fs2.dirs := by
                    have := dataFile_write_dirs df
                      (locs.drop (locs.length - lvl.nlocs)) p fs2
                    rw [hw] at this
                    exact this
                  have hmonow : ∀ d, fs2.isdir d = true → fsw.isdir d = true := by
                    intro d hdd
                    simp only [FS.isdir] at hdd ⊢
                    rw [hdirs]
                    exact hdd
                  refine ⟨⟨p, hpath, ?_⟩, hle, ?_⟩
                  · rw [← h.2]
                    exact hmonow p hdir2
                  · rw [← h.2]
                    exact chainOKAux_mono rs r _ fs2 fsw hmonow hroot2
    · simp [hle] at h

theorem chainOK_createAux_noop :
    ∀ (roots : List DSLevel) (lvl : DSLevel) (locs : List String) (fs : FS),
      chainOKAux lvl roots locs fs → createAux lvl roots locs fs = (.ok (), fs) := by
  intro roots
  induction roots with
  | nil =>
    intro lvl locs fs hok
    obtain ⟨p, hp, hd⟩ := hok
    unfold createAux
    simp [DataSeries.exists, DataSeries.path, hp, hd]
  | cons r rs ih =>
    intro lvl locs fs hok
    obtain ⟨⟨p, hp, hd⟩, hle, hroot⟩ := hok
    unfold createAux
    simp only [hle, if_true, ih r _ fs hroot]
    simp [DataSeries.exists, DataSeries.path, hp, hd]

/-! ## C8: `create` is idempotent -/

/-- C8: after a successful `create(locs)` on an AddressSpace with a
locator-recording FileSlot, a second `create(locs)` does not raise and
returns the state completely unchanged (hence no new directories and the
recorded locator file byte-for-byte intact), and `exists(locs)` holds. -/
theorem dataSeries_create_idempotent :
    ∀ (ds : DataSeries) (locs : List String) (fs fs' : FS)
      (df : DataFile (List String)),
      ds.level.loc_dfile = some df →
      ds.create locs fs = (.ok (), fs') →
      ds.create locs fs' = (.ok (), fs') ∧ ds.exists locs fs' = .ok true := by
  intro ds locs fs fs' df _ h
  obtain ⟨lvl, roots⟩ := ds
  have hok : chainOKAux lvl roots locs fs' :=
    createAux_ok_chainOK roots lvl locs fs fs' h
  exact ⟨chainOK_createAux_noop roots lvl locs fs' hok, chainOKAux_exists hok⟩

/-- The C8 witness series: arity 1, depth 1, with a locator-recording file. -/
def c8ds : DataSeries :=
  ⟨⟨⟨true, ["p"]⟩, fun ls => ⟨false, ls⟩, 1, 1,
    some (DataFile.init "locs" (fun ls => List.headD ls "") (fun s => [s])),
    false⟩, []⟩

/-- The C8 witness states before and after the first `create`. -/
def c8fs : FS := ⟨[["p"]], [], [], 0, 0⟩

/-- State after `create ["a"]` on `c8fs`. -/
def c8fs' : FS := ⟨[["p"], ["p", "a"]], [(["p", "a", "locs"], "a")], [], 0, 0⟩

/-- C8 witness: a concrete create, its exact resulting state, and the
idempotent second call. -/
theorem dataSeries_create_idempotent_witness :
    c8ds.create ["a"] c8fs = (.ok (), c8fs') ∧
    c8ds.create ["a"] c8fs' = (.ok (), c8fs') ∧
    c8ds.exists ["a"] c8fs' = .ok true := by
  refine ⟨rfl, ?_, ?_⟩
  · exact (dataSeries_create_idempotent c8ds ["a"] c8fs c8fs'
      (DataFile.init "locs" (fun ls => List.headD ls "") (fun s => [s]))
      rfl rfl).1
  · exact (dataSeries_create_idempotent c8ds ["a"] c8fs c8fs'
      (DataFile.init "locs" (fun ls => List.headD ls "") (fun s => [s]))
      rfl rfl).2

/-! ## C3: `create` on a malformed mapping -/

/-- C3 (amended): if the mapped relative path of the locator's local suffix
is not relative or does not have the declared depth, `create` fails with an
assertion error; when the AddressSpace has no parent the filesystem is left
exactly as before, but when it is chained the parent chain's `create` has
already run, so ancestor directories may have been created before the
failure is raised (the resulting state is exactly the state after the
parent's `create`). -/
theorem dataSeries_create_bad_map :
    (∀ (ds : DataSeries) (locs : List String) (fs : FS),
      ds.roots = [] →
      locs.length = ds.level.nlocs →
      (pathIsRelative (ds.level.map_ locs) = false ∨
        pathHasDepth (ds.level.map_ locs) ds.level.depth = false) →
      ds.create locs fs = (.error .assertionError, fs)) ∧
    (∀ (ds : DataSeries) (r : DSLevel) (rs : List DSLevel)
      (locs : List String) (fs fs1 : FS),
      ds.roots = r :: rs →
      ds.level.nlocs ≤ locs.length →
      DataSeries.create ⟨r, rs⟩ (locs.take (locs.length - ds.level.nlocs)) fs =
        (.ok (), fs1) →
      (pathIsRelative (ds.level.map_ (locs.drop (locs.length - ds.level.nlocs)))
          = false ∨
        pathHasDepth (ds.level.map_ (locs.drop (locs.length - ds.level.nlocs)))
          ds.level.depth = false) →
      ds.create locs fs = (.error .assertionError, fs1)) := by
  constructor
  · intro ds locs fs hroots hlen hbad
    obtain ⟨lvl, roots⟩ := ds
    simp only at hroots hlen hbad
    subst hroots
    have hpath : pathAux lvl [] locs = .error .assertionError := by
      unfold pathAux levelJoin
      rcases hbad with hb | hb
      · simp [hlen, hb]
      · simp only [hlen, beq_self_eq_true, if_true]
        cases hrel : pathIsRelative (lvl.map_ locs)
        · simp
        · simp [hb]
    simp only [DataSeries.create]
    unfold createAux
    simp [DataSeries.exists, DataSeries.path, hpath]
  · intro ds r rs locs fs fs1 hroots hle hcr hbad
    obtain ⟨lvl, roots⟩ := ds
    simp only at hroots hle hbad
    subst hroots
    have hroot1 : chainOKAux r rs (locs.take (locs.length - lvl.nlocs)) fs1 :=
      createAux_ok_chainOK rs r _ fs fs1 hcr
    have hplen : (locs.drop (locs.length - lvl.nlocs)).length = lvl.nlocs := by
      simp only [List.length_drop]
      omega
    have hpath : pathAux lvl (r :: rs) locs = .error .assertionError := by
      unfold pathAux
      rw [if_pos hle]
      obtain ⟨p0, hp0, _⟩ := (by
        cases rs with
        | nil => exact hroot1
        | cons a as => exact hroot1.1 : ∃ p0,
          pathAux r rs (locs.take (locs.length - lvl.nlocs)) = .ok p0 ∧
            fs1.isdir p0 = true)
      rw [hp0]
      unfold levelJoin
      rw [hplen]
      rcases hbad with hb | hb
      · simp [hb]
      · simp only [beq_self_eq_true, if_true]
        cases hrel : pathIsRelative (lvl.map_ (locs.drop (locs.length - lvl.nlocs)))
        · simp
        · simp [hb]
    simp only [DataSeries.create] at hcr ⊢
    unfold createAux
    simp only [hle, if_true, hcr]
    simp [DataSeries.exists, DataSeries.path, hpath]

/-- The C3 counterexample root: arity 1, depth 1, well-formed mapping. -/
def c3rootLvl : DSLevel := ⟨⟨true, ["p"]⟩, fun ls => ⟨false, ls⟩, 1, 1, none, false⟩

/-- The C3 counterexample child: its mapping produces two segments though
the declared depth is 1. -/
def c3child : DataSeries :=
  ⟨⟨⟨true, ["p"]⟩, fun ls => ⟨false, ls ++ ls⟩, 1, 1, none, false⟩, [c3rootLvl]⟩

/-- Initial state for the C3 counterexample: only the base prefix exists. -/
def c3fs : FS := ⟨[["p"]], [], [], 0, 0⟩

/-- C3 counterexample: on a chained AddressSpace whose own mapping violates
the declared depth, `create` does fail — but only after the parent chain's
directories have been created, so the filesystem is not left as before the
call. -/
theorem dataSeries_create_bad_map_creates_parent :
    pathHasDepth (c3child.level.map_ ["c"]) c3child.level.depth = false ∧
    (c3child.create ["r", "c"] c3fs).1 = .error .assertionError ∧
    ((c3child.create ["r", "c"] c3fs).2).isdir ["p", "r"] = true ∧
    c3fs.isdir ["p", "r"] = false :=
  ⟨rfl, rfl, rfl, rfl⟩

/-- C3 witness: the amended behavior at concrete inputs — an unchained bad
mapping leaves the state untouched, and the chained instance above ends in
exactly the parent's post-`create` state. -/
theorem dataSeries_create_bad_map_witness :
    ((⟨⟨⟨true, ["p"]⟩, fun ls => ⟨false, ls ++ ls⟩, 1, 1, none, false⟩, []⟩ :
        DataSeries).create ["c"] c3fs = (.error .assertionError, c3fs)) ∧
    (c3child.create ["r", "c"] c3fs =
      (.error .assertionError, ⟨[["p"], ["p", "r"]], [], [], 0, 0⟩)) := by
  constructor
  · exact dataSeries_create_bad_map.1 _ ["c"] c3fs rfl rfl (Or.inr rfl)
  · exact dataSeries_create_bad_map.2 c3child c3rootLvl [] ["r", "c"] c3fs
      ⟨[["p"], ["p", "r"]], [], [], 0, 0⟩ rfl (by decide) rfl (Or.inr rfl)

/-! ## C5: enumeration in the fully-specified case -/

/-- C5 (amended): for arity > 0 with a locator-recording FileSlot and a
fully specified root locator, `existing(root_locs, relative)` enumerates
exactly the depth-deep non-hidden directory entries under the resolved
prefix (a `*` glob pattern skips names starting with a dot), sorted
lexicographically by path string, reading each entry's recorded locator
value back from its locator file and skipping entries whose locator file is
missing, prepending `root_locs` unless `relative` is requested. -/
theorem dataSeries_existing_spec :
    ∀ (ds : DataSeries) (df : DataFile (List String))
      (root_locs : List String) (relative : Bool) (pre : List String)
      (fs : FS),
      ds.level.nlocs ≠ 0 →
      ds.level.loc_dfile = some df →
      root_locs.length = ds.rootLocatorCount →
      ds.resolvedPre root_locs = .ok pre →
      ds.existing root_locs relative fs =
        specExisting ds.level.depth df pre root_locs relative fs := by
  intro ds df root_locs relative pre fs hn hdf hlen hpre
  obtain ⟨lvl, roots⟩ := ds
  simp only [DataSeries.rootLocatorCount] at hlen
  simp only at hn hdf hpre
  have h0 : (lvl.nlocs == 0) = false := by simpa using hn
  have hlt : ¬ root_locs.length < sumNlocs roots := by omega
  have heq : (sumNlocs roots == root_locs.length) = true := by
    simpa using hlen.symm
  unfold DataSeries.existing
  simp only [existingFuel]
  unfold existingStep
  simp only [h0, Bool.false_eq_true, if_false, hdf, hlt, heq, if_true,
    DataSeries.existingPaths, hpre]
  unfold specExisting
  simp only [globDirs]

/-- The locator-recording slot used by the C5 instances. -/
def c5df : DataFile (List String) :=
  DataFile.init "locs" (fun ls => List.headD ls "") (fun s => [s])

/-- The C5 series: arity 1, depth 1, identity-style mapping. -/
def c5ds : DataSeries :=
  ⟨⟨⟨true, ["p"]⟩, fun ls => ⟨false, ls⟩, 1, 1, some c5df, false⟩, []⟩

/-- A state holding a depth-1 directory entry named `.a` with a readable
recorded locator file. -/
def c5fsHidden : FS :=
  ⟨[["p"], ["p", ".a"]], [(["p", ".a", "locs"], ".a")], [], 0, 0⟩

/-- C5 counterexample: the hidden directory entry `.a` is a depth-deep
directory entry under the resolved prefix with a readable locator file, yet
`existing` does not enumerate it (the glob `*` pattern skips dot names), so
the enumeration is not exactly the depth-deep directory entries. -/
theorem dataSeries_existing_skips_hidden :
    c5ds.existing [] true c5fsHidden = .ok [] ∧
    c5fsHidden.isdir ["p", ".a"] = true ∧
    c5df.exists ["p", ".a"] c5fsHidden = true ∧
    c5df.read ["p", ".a"] c5fsHidden = .ok [".a"] :=
  ⟨rfl, rfl, rfl, rfl⟩

/-- C5 witness states: before and after creating `"b"`, `"a"`, `"c"`. -/
def c5fs0 : FS := ⟨[["p"]], [], [], 0, 0⟩

/-- After `create ["b"]`. -/
def c5fs1 : FS := ⟨[["p"], ["p", "b"]], [(["p", "b", "locs"], "b")], [], 0, 0⟩

/-- After `create ["a"]`. -/
def c5fs2 : FS :=
  ⟨[["p"], ["p", "b"], ["p", "a"]],
    [(["p", "b", "locs"], "b"), (["p", "a", "locs"], "a")], [], 0, 0⟩

/-- After `create ["c"]`. -/
def c5fs3 : FS :=
  ⟨[["p"], ["p", "b"], ["p", "a"], ["p", "c"]],
    [(["p", "b", "locs"], "b"), (["p", "a", "locs"], "a"),
      (["p", "c", "locs"], "c")], [], 0, 0⟩

/-- C5 witness: creating `"b"`, `"a"`, `"c"` in that order and then
enumerating returns them sorted as `[("a",), ("b",), ("c",)]`, and the
enumeration agrees with the spec-phrased pipeline. -/
theorem dataSeries_existing_spec_witness :
    c5ds.create ["b"] c5fs0 = (.ok (), c5fs1) ∧
    c5ds.create ["a"] c5fs1 = (.ok (), c5fs2) ∧
    c5ds.create ["c"] c5fs2 = (.ok (), c5fs3) ∧
    c5ds.existing [] true c5fs3 = specExisting 1 c5df ["p"] [] true c5fs3 ∧
    c5ds.existing [] true c5fs3 = .ok [["a"], ["b"], ["c"]] := by
  refine ⟨rfl, rfl, rfl, ?_, rfl⟩
  exact dataSeries_existing_spec c5ds c5df [] true ["p"] c5fs3
    (by decide) rfl rfl rfl

/-! ## C4: unset keys read as absent -/

theorem jnavLoop_empty : ∀ (key : List String) (ex : Bool),
    jnavLoop key (JVal.obj []) ex = .ok (JVal.obj [], ex && key.isEmpty) := by
  intro key
  induction key with
  | nil => intro ex; simp [jnavLoop]
  | cons k rest ih =>
    intro ex
    unfold jnavLoop
    simp [List.lookup, ih]

theorem jnavLoop_safe : ∀ (key : List String) (es : List (String × JVal))
    (ex : Bool), navSafe key (JVal.obj es) = true →
    ∃ es' ex', jnavLoop key (JVal.obj es) ex = .ok (JVal.obj es', ex') ∧
      (ex' = true → ex = true ∧
        properResolve (JVal.obj es) key = some (JVal.obj es')) := by
  intro key
  induction key with
  | nil =>
    intro es ex _
    exact ⟨es, ex, rfl, fun hx => ⟨hx, rfl⟩⟩
  | cons k rest ih =>
    intro es ex h
    unfold navSafe at h
    cases hlk : es.lookup k with
    | none =>
      rw [hlk] at h
      obtain ⟨es', ex', hnav, himp⟩ := ih es false h
      refine ⟨es', ex', ?_, ?_⟩
      · unfold jnavLoop
        rw [hlk]
        exact hnav
      · intro hx
        obtain ⟨hfalse, _⟩ := himp hx
        simp at hfalse
    | some v =>
      cases v with
      | str s =>
        rw [hlk] at h
        simp at h
      | obj es2 =>
        rw [hlk] at h
        obtain ⟨es', ex', hnav, himp⟩ := ih es2 ex h
        refine ⟨es', ex', ?_, ?_⟩
        · unfold jnavLoop
          rw [hlk]
          exact hnav
        · intro hx
          obtain ⟨hex, hres⟩ := himp hx
          refine ⟨hex, ?_⟩
          unfold properResolve
          rw [hlk]
          exact hres

/-- C4 (amended): a `DocumentField` read/exists on an unset key is benign
rather than an error — when the document file has never been created, and
when the document is present with the key path not populated, provided the
navigation loop is safe on that key (every segment it finds refers to a
nested mapping; descending into a leaf value raises a type error, see the
counterexample); a document whose contents are not a nested mapping is a
corruption error. -/
theorem jsonEntry_unset_read_spec :
    ∀ (α : Type) (e : JSONEntry α) (key : List String) (mapping : Bool)
      (p : List String) (fs : FS),
      e.js.json_path e.json.json_layer = .ok p →
      ((fs.isfile p = false →
        e.existsE key mapping fs = (.ok false, fs.bumpR) ∧
        e.read key mapping fs = (.ok none, fs.bumpR)) ∧
      (∀ es, fs.docs.lookup p = some (JVal.obj es) →
        navSafe (e.json.addLayer (if mapping then e.js.mapKey key else key))
          (JVal.obj es) = true →
        properLookup (JVal.obj es)
          (e.json.addLayer (if mapping then e.js.mapKey key else key))
          e.json.name = none →
        e.existsE key mapping fs = (.ok false, fs.bumpR) ∧
        e.read key mapping fs = (.ok none, fs.bumpR)) ∧
      (∀ s, fs.docs.lookup p = some (JVal.str s) →
        e.existsE key mapping fs = (.error .documentCorruption, fs.bumpR))) := by
  intro α e key mapping p fs hp
  refine ⟨?_, ?_, ?_⟩
  · intro hmiss
    have h1 : fs.files.lookup p = none := by
      rcases h : fs.files.lookup p with _ | v
      · rfl
      · exfalso
        simp [FS.isfile, h] at hmiss
    have h2 : fs.docs.lookup p = none := by
      rcases h : fs.docs.lookup p with _ | v
      · rfl
      · exfalso
        simp [FS.isfile, h] at hmiss
    have hrj : readJson fs p = (.ok (JVal.obj []), fs.bumpR) := by
      unfold readJson
      rw [h2, h1]
      simp
    have hex : e.existsE key mapping fs = (.ok false, fs.bumpR) := by
      unfold JSONEntry.existsE JSONObject.existsAt
      simp only [hp, hrj, jnavLoop_empty]
      cases hke : (e.json.addLayer
          (if mapping then e.js.mapKey key else key)).isEmpty
      · simp [hke]
      · simp [hke, List.lookup]
    refine ⟨hex, ?_⟩
    unfold JSONEntry.read
    simp only [hex]
  · intro es hdoc hsafe hun
    have hrj : readJson fs p = (.ok (JVal.obj es), fs.bumpR) := by
      unfold readJson
      rw [hdoc]
    obtain ⟨es', ex', hnav, himp⟩ := jnavLoop_safe _ es true hsafe
    have hex : e.existsE key mapping fs = (.ok false, fs.bumpR) := by
      unfold JSONEntry.existsE JSONObject.existsAt
      simp only [hp, hrj, hnav]
      cases hx : ex'
      · simp
      · obtain ⟨_, hres⟩ := himp hx
        have hname : es'.lookup e.json.name = none := by
          unfold properLookup at hun
          rw [hres] at hun
          exact hun
        simp [hname]
    refine ⟨hex, ?_⟩
    unfold JSONEntry.read
    simp only [hex]
  · intro s hdoc
    have hrj : readJson fs p = (.error .documentCorruption, fs.bumpR) := by
      unfold readJson
      rw [hdoc]
    unfold JSONEntry.existsE JSONObject.existsAt
    simp only [hp, hrj]

/-- The C4 document: `"y"` is a leaf at the top level. -/
def c4doc : JVal := JVal.obj [("y", JVal.str "leaf")]

/-- The C4 series (document file at `p/db.json`). -/
def c4ds : DataSeries :=
  ⟨⟨⟨true, ["p"]⟩, fun ls => ⟨false, ls⟩, 1, 1, none, false⟩, []⟩

/-- The C4 document field, name `"n"`, no layering. -/
def c4e : JSONEntry String :=
  JSONEntry.init c4ds
    (JSONObject.init "n" [] none id
      (fun j => match j with | JVal.str s => s | JVal.obj _ => ""))

/-- The C4 state: the document file holds `c4doc`. -/
def c4fs : FS := ⟨[["p"]], [], [(["p", "db.json"], c4doc)], 0, 0⟩

/-- C4 counterexample: the key path `("x", "y")` is not populated (there is
no `"x"` at the top level), yet `exists` raises a type error instead of
returning false — after the miss on `"x"` the navigation loop keeps
scanning and descends into the leaf `"y"`, calling `.keys()` on a string;
`read` raises likewise instead of returning an absent result. -/
theorem jsonEntry_exists_raises_on_leaf_descent :
    properLookup c4doc ["x", "y"] "n" = none ∧
    properResolve c4doc ["x"] = none ∧
    (c4e.existsE ["x", "y"] false c4fs).1 = .error .attributeError ∧
    (c4e.read ["x", "y"] false c4fs).1 = .error .attributeError :=
  ⟨rfl, rfl, rfl, rfl⟩

/-- C4 witness: the amended benign cases at concrete inputs — a read/exists
on a missing document file, and on an unset but navigation-safe key of the
present document. -/
theorem jsonEntry_unset_read_spec_witness :
    (c4e.existsE ["z"] false ⟨[["p"]], [], [], 0, 0⟩ =
      (.ok false, FS.bumpR ⟨[["p"]], [], [], 0, 0⟩)) ∧
    (c4e.read ["z"] false ⟨[["p"]], [], [], 0, 0⟩ =
      (.ok none, FS.bumpR ⟨[["p"]], [], [], 0, 0⟩)) ∧
    (c4e.existsE ["z"] false c4fs = (.ok false, c4fs.bumpR)) ∧
    (c4e.read ["z"] false c4fs = (.ok none, c4fs.bumpR)) := by
  have h1 := (jsonEntry_unset_read_spec String c4e ["z"] false
    ["p", "db.json"] ⟨[["p"]], [], [], 0, 0⟩ rfl).1 rfl
  have h2 := ((jsonEntry_unset_read_spec String c4e ["z"] false
    ["p", "db.json"] c4fs rfl).2.1 [("y", JVal.str "leaf")] rfl rfl rfl)
  exact ⟨h1.1, h1.2, h2.1, h2.2⟩

/-! ## C1: batching lemmas -/

theorem readJson_snd (fs : FS) (p : List String) :
    (readJson fs p).2 = fs.bumpR := by
  unfold readJson
  rcases h : fs.docs.lookup p with _ | v
  · by_cases hf : (fs.files.lookup p).isSome <;> simp [hf]
  · cases v <;> simp

theorem readJson_fst_core (fs fs' : FS) (p : List String)
    (hd : fs'.docs = fs.docs) (hf : fs'.files = fs.files) :
    (readJson fs' p).1 = (readJson fs p).1 := by
  unfold readJson
  rw [hd, hf]
  rcases h : fs.docs.lookup p with _ | v
  · by_cases hfp : (fs.files.lookup p).isSome <;> simp [hfp]
  · cases v <;> simp

/-- The number of document-creation writes the write guard performs. -/
def JSONEntry.createWrites {α : Type u} (e : JSONEntry α) (fs : FS) : Nat :=
  match e.js.json_exists e.json.json_layer fs, e.js.json_exists none fs with
  | .ok false, .ok false => 1
  | _, _ => 0

theorem json_exists_eq {ds : DataSeries} {l : Option String} {p : List String}
    (fs : FS) (hp : ds.json_path l = .ok p) :
    ds.json_exists l fs = .ok (fs.isfile p) := by
  unfold DataSeries.json_exists
  rw [hp]

theorem json_path_none_ok {ds : DataSeries} {l : Option String}
    {p : List String} (hp : ds.json_path l = .ok p) :
    ∃ p0, ds.json_path none = .ok p0 := by
  unfold DataSeries.json_path at hp ⊢
  rcases h : (match ds.root with
              | none => Except.ok ds.level.pre.segs
              | some r => r.path []) with e | pre
  · rw [h] at hp
    simp at hp
  · exact ⟨pre ++ ["db.json"], by rw [h]⟩

theorem existsE_eq {α : Type u} (e : JSONEntry α) (key : List String)
    (mapping : Bool) (fs : FS) {p : List String}
    (hp : e.js.json_path e.json.json_layer = .ok p) :
    e.existsE key mapping fs =
      ((match (readJson fs p).1 with
        | .error er => .error er
        | .ok jd =>
          match jnavLoop (e.json.addLayer
              (if mapping then e.js.mapKey key else key)) jd true with
          | .error er => .error er
          | .ok (dct, ex) =>
            if ex then
              match dct with
              | JVal.obj es => .ok (es.lookup e.json.name).isSome
              | JVal.str _ => .error .attributeError
            else .ok false), fs.bumpR) := by
  unfold JSONEntry.existsE JSONObject.existsAt
  simp only [hp]
  rcases hr : readJson fs p with ⟨r1, fs1⟩
  have h2 : fs1 = fs.bumpR := by
    have := readJson_snd fs p
    rw [hr] at this
    exact this
  subst h2
  simp only [hr]
  cases r1 with
  | error er => simp
  | ok jd =>
    rcases hn : jnavLoop (e.json.addLayer
        (if mapping then e.js.mapKey key else key)) jd true with er | de
    · simp [hn]
    · obtain ⟨dct, ex⟩ := de
      cases ex
      · simp [hn]
      · cases dct <;> simp [hn]

theorem jvalSetPath_obj {name val : String} :
    ∀ (key : List String) (es : List (String × JVal)) (jd' : JVal),
      jvalSetPath name val key (JVal.obj es) = .ok jd' →
      ∃ es2, jd' = JVal.obj es2 := by
  intro key es jd' h
  cases key with
  | nil =>
    unfold jvalSetPath at h
    simp only [Except.ok.injEq] at h
    exact ⟨_, h.symm⟩
  | cons k rest =>
    unfold jvalSetPath at h
    split at h
    · simp at h
    · split at h
      · simp at h
      · simp only [Except.ok.injEq] at h
        exact ⟨_, h.symm⟩

theorem zipMapFst {α : Type u} (f : List String → List String) :
    ∀ (keys : List (List String)) (vals : List α),
      (keys.map f).zip vals = (keys.zip vals).map (fun kv => (f kv.1, kv.2)) := by
  intro keys
  induction keys with
  | nil => intro vals; rfl
  | cons k ks ih =>
    intro vals
    cases vals with
    | nil => rfl
    | cons v vs => simp [ih]

theorem existsE_core_stable {α : Type u} (e : JSONEntry α) (key : List String)
    (mapping : Bool) (fs fs' : FS) {p : List String}
    (hp : e.js.json_path e.json.json_layer = .ok p)
    (hd : fs'.docs = fs.docs) (hf : fs'.files = fs.files) :
    (e.existsE key mapping fs').1 = (e.existsE key mapping fs).1 := by
  rw [existsE_eq e key mapping fs' hp, existsE_eq e key mapping fs hp]
  simp only [readJson_fst_core fs fs' p hd hf]

theorem read_eq {α : Type u} (e : JSONEntry α) (key : List String)
    (mapping : Bool) (fs : FS) {p : List String}
    (hp : e.js.json_path e.json.json_layer = .ok p) :
    e.read key mapping fs =
      match (e.existsE key mapping fs).1 with
      | .error er => (.error er, fs.bumpR)
      | .ok false => (.ok none, fs.bumpR)
      | .ok true =>
        ((match (readJson fs p).1 with
          | .error er => .error er
          | .ok jd =>
            e.json.readIn (if mapping then e.js.mapKey key else key) jd),
          fs.bumpR.bumpR) := by
  unfold JSONEntry.read
  rcases hex : e.existsE key mapping fs with ⟨r1, fs1⟩
  have h1 : fs1 = fs.bumpR := by
    have h := existsE_eq e key mapping fs hp
    rw [hex] at h
    exact congrArg Prod.snd h
  subst h1
  cases r1 with
  | error er => simp
  | ok b =>
    cases b with
    | false => simp
    | true =>
      simp only [hp]
      unfold JSONObject.read
      rcases hr2 : readJson fs.bumpR p with ⟨r2, fs2⟩
      have h2 : fs2 = fs.bumpR.bumpR := by
        have h := readJson_snd fs.bumpR p
        rw [hr2] at h
        exact h
      subst h2
      have h3 : r2 = (readJson fs p).1 := by
        have h := readJson_fst_core fs fs.bumpR p rfl rfl
        rw [hr2] at h
        exact h
      subst h3
      rcases hrj : (readJson fs p).1 with er | jd <;> simp [hrj]

theorem gather_spec {α : Type u} (e : JSONEntry α) (mapping : Bool) (fs : FS)
    {p : List String} (hp : e.js.json_path e.json.json_layer = .ok p) :
    ∀ (keys : List (List String)) (fs' : FS), fs'.docs = fs.docs →
      fs'.files = fs.files →
      (∃ er, (e.gatherKeys mapping keys fs').1 = .error er) ∨
      (e.gatherKeys mapping keys fs' =
        (.ok ((keys.filter (fun k => e.exB k mapping fs)).map
          (fun k => if mapping then e.js.mapKey k else k)),
         { fs' with jreads := fs'.jreads + keys.length }) ∧
       ∀ k ∈ keys, (e.existsE k mapping fs).1 = .ok (e.exB k mapping fs)) := by
  intro keys
  induction keys with
  | nil =>
    intro fs' _ _
    right
    refine ⟨rfl, ?_⟩
    intro k hk
    simp at hk
  | cons k rest ih =>
    intro fs' hd hf
    have hsnd : (e.existsE k mapping fs').2 = fs'.bumpR :=
      congrArg Prod.snd (existsE_eq e k mapping fs' hp)
    have hfst : (e.existsE k mapping fs').1 = (e.existsE k mapping fs).1 :=
      existsE_core_stable e k mapping fs fs' hp hd hf
    rcases hx : e.existsE k mapping fs' with ⟨r1, fs1⟩
    have hfs1 : fs1 = fs'.bumpR := by rw [hx] at hsnd; exact hsnd
    subst hfs1
    rcases hr1 : (e.existsE k mapping fs).1 with er | b
    · left
      refine ⟨er, ?_⟩
      unfold JSONEntry.gatherKeys
      rw [hx]
      have : r1 = .error er := by
        rw [hx] at hfst
        simpa [hr1] using hfst
      rw [this]
    · have hrb : r1 = .ok b := by
        rw [hx] at hfst
        simpa [hr1] using hfst
      subst hrb
      have hxb : e.exB k mapping fs = b := by
        unfold JSONEntry.exB
        rw [hr1]
      rcases ih fs'.bumpR hd hf with ⟨er, herr⟩ | ⟨hgeq, hall⟩
      · left
        refine ⟨er, ?_⟩
        unfold JSONEntry.gatherKeys
        simp only [hx]
        rcases hg2 : e.gatherKeys mapping rest fs'.bumpR with ⟨rg, fs2⟩
        have hrg : rg = .error er := by
          rw [hg2] at herr
          exact herr
        subst hrg
        simp
      · right
        constructor
        · unfold JSONEntry.gatherKeys
          simp only [hx, hgeq]
          have hfs2 : ({ fs'.bumpR with
              jreads := fs'.bumpR.jreads + rest.length } : FS) =
              { fs' with jreads := fs'.jreads + (k :: rest).length } := by
            cases fs'
            simp only [FS.bumpR, List.length_cons]
            congr 1
            omega
          rw [hfs2]
          simp only [List.filter_cons, hxb]
          cases b <;> simp
        · intro k2 hk2
          rcases List.mem_cons.mp hk2 with hbeg | hmem
          · subst hbeg
            rw [hr1, hxb]
          · exact hall k2 hmem

theorem readFold_ok {α : Type u} (e : JSONEntry α) (jd : JVal) :
    ∀ (L : List (List String)),
      (∀ k ∈ L, ∃ o, e.json.readIn k jd = .ok o) →
      e.json.readFold jd L = .ok (L.map (fun k =>
        match e.json.readIn k jd with
        | .ok o => o
        | .error _ => none)) := by
  intro L
  induction L with
  | nil => intro _; rfl
  | cons k rest ih =>
    intro hall
    obtain ⟨o, ho⟩ := hall k (List.mem_cons_self k rest)
    unfold JSONObject.readFold
    rw [ho, ih (fun k2 hk2 => hall k2 (List.mem_cons_of_mem k hk2))]
    simp [ho]

theorem existsTrue_readIn {α : Type u} (e : JSONEntry α) (key : List String)
    (mapping : Bool) (fs : FS) {p : List String} {jd : JVal}
    (hp : e.js.json_path e.json.json_layer = .ok p)
    (hrj : (readJson fs p).1 = .ok jd)
    (hex : (e.existsE key mapping fs).1 = .ok true) :
    ∃ v, e.json.readIn (if mapping then e.js.mapKey key else key) jd =
      .ok (some v) := by
  rw [existsE_eq e key mapping fs hp] at hex
  simp only [hrj] at hex
  rcases hn : jnavLoop (e.json.addLayer
      (if mapping then e.js.mapKey key else key)) jd true with er | de
  · simp [hn] at hex
  · obtain ⟨dct, ex⟩ := de
    cases ex with
    | false => simp [hn] at hex
    | true =>
      cases dct with
      | str s => simp [hn] at hex
      | obj es2 =>
        simp only [hn] at hex
        have hsome : (es2.lookup e.json.name).isSome = true := by
          simpa using hex
        rcases hlk : es2.lookup e.json.name with _ | v
        · rw [hlk] at hsome
          simp at hsome
        · refine ⟨e.json.reader_ v, ?_⟩
          unfold JSONObject.readIn
          simp [hn, hlk]

theorem readAllSpec {α : Type u} (e : JSONEntry α) (mapping : Bool)
    {p : List String} (hp : e.js.json_path e.json.json_layer = .ok p) :
    ∀ (keys : List (List String)) (fs : FS) (vs : List (Option α)),
      (e.read_all keys mapping fs).1 = .ok vs →
      (vs = (keys.filter (fun k => e.exB k mapping fs)).map
          (fun k => e.rdO k mapping fs) ∧
       (∀ k ∈ keys, e.exB k mapping fs = false →
          (e.read k mapping fs).1 = .ok none) ∧
       (∀ k ∈ keys, e.exB k mapping fs = true →
          (e.read k mapping fs).1 = .ok (e.rdO k mapping fs)) ∧
       (e.read_all keys mapping fs).2 =
         { fs with jreads := fs.jreads + keys.length +
             (if (keys.filter (fun k => e.exB k mapping fs)).isEmpty
              then 0 else 1) }) := by
  intro keys fs vs h
  unfold JSONEntry.read_all at h ⊢
  rcases gather_spec e mapping fs hp keys fs rfl rfl with ⟨er, herr⟩ | ⟨hgeq, hall⟩
  · exfalso
    rcases hg : e.gatherKeys mapping keys fs with ⟨rg, fsg⟩
    have hrg : rg = .error er := by
      rw [hg] at herr
      exact herr
    subst hrg
    rw [hg] at h
    simp at h
  · have hcon2 : ∀ k ∈ keys, e.exB k mapping fs = false →
        (e.read k mapping fs).1 = .ok none := by
      intro k hk hxb
      rw [read_eq e k mapping fs hp]
      have hex := hall k hk
      rw [hxb] at hex
      simp [hex]
    simp only [hgeq] at h ⊢
    obtain ⟨FK, hFK⟩ : ∃ FK, keys.filter (fun k => e.exB k mapping fs) = FK :=
      ⟨_, rfl⟩
    rw [hFK] at h ⊢
    cases FK with
    | nil =>
      simp only [List.map_nil, List.isEmpty_nil, if_true] at h ⊢
      have hvs : vs = [] := by simpa using h.symm
      subst hvs
      refine ⟨rfl, hcon2, ?_, ?_⟩
      · intro k hk hxb
        exfalso
        have hmem : k ∈ keys.filter (fun k => e.exB k mapping fs) :=
          List.mem_filter.mpr ⟨hk, hxb⟩
        rw [hFK] at hmem
        simp at hmem
      · simp
    | cons f0 frest =>
      have hmem' : ∀ k ∈ f0 :: frest, k ∈ keys ∧ e.exB k mapping fs = true := by
        intro k hk
        have hmem : k ∈ keys.filter (fun k => e.exB k mapping fs) := by
          rw [hFK]
          exact hk
        exact List.mem_filter.mp hmem
      have hexf0 : (e.existsE f0 mapping fs).1 = .ok true := by
        obtain ⟨hk, hxb⟩ := hmem' f0 (List.mem_cons_self f0 frest)
        have hx := hall f0 hk
        rw [hxb] at hx
        exact hx
      obtain ⟨jd, hrj⟩ : ∃ jd, (readJson fs p).1 = .ok jd := by
        rcases hr : (readJson fs p).1 with er | jd
        · exfalso
          rw [existsE_eq e f0 mapping fs hp] at hexf0
          simp [hr] at hexf0
        · exact ⟨jd, rfl⟩
      simp only [List.map_cons, List.isEmpty_cons, Bool.false_eq_true,
        if_false, hp] at h ⊢
      unfold JSONObject.read_all at h ⊢
      rcases hr2 : readJson { fs with jreads := fs.jreads + keys.length } p
        with ⟨r2, fs2⟩
      have hfs2 : fs2 = ({ fs with
          jreads := fs.jreads + keys.length } : FS).bumpR := by
        have hx := readJson_snd { fs with jreads := fs.jreads + keys.length } p
        rw [hr2] at hx
        exact hx
      have hr2v : r2 = .ok jd := by
        have hx := readJson_fst_core fs
          { fs with jreads := fs.jreads + keys.length } p rfl rfl
        rw [hr2] at hx
        have hx2 : r2 = (readJson fs p).1 := hx
        rw [hx2, hrj]
      subst hfs2
      subst hr2v
      rw [hr2] at h
      simp only at h ⊢
      have hreadin : ∀ nk ∈ (f0 :: frest).map
          (fun k => if mapping then e.js.mapKey k else k), ∃ o,
          e.json.readIn nk jd = .ok o := by
        intro nk hnk
        obtain ⟨k0, hk0f, hk0e⟩ := List.mem_map.mp hnk
        obtain ⟨hk0, hxb0⟩ := hmem' k0 hk0f
        have hex0 : (e.existsE k0 mapping fs).1 = .ok true := by
          have hx := hall k0 hk0
          rw [hxb0] at hx
          exact hx
        obtain ⟨v, hv⟩ := existsTrue_readIn e k0 mapping fs hp hrj hex0
        exact ⟨some v, hk0e ▸ hv⟩
      have hfold := readFold_ok e jd
        ((f0 :: frest).map (fun k => if mapping then e.js.mapKey k else k))
        hreadin
      simp only [List.map_cons] at hfold
      rw [hfold] at h
      simp only [Except.ok.injEq] at h
      have hrd : ∀ k ∈ f0 :: frest,
          (e.read k mapping fs).1 = .ok (e.rdO k mapping fs) ∧
          e.rdO k mapping fs =
            (match e.json.readIn
                (if mapping then e.js.mapKey k else k) jd with
             | .ok o => o
             | .error _ => none) := by
        intro k hkf
        obtain ⟨hk, hxb⟩ := hmem' k hkf
        have hex0 : (e.existsE k mapping fs).1 = .ok true := by
          have hx := hall k hk
          rw [hxb] at hx
          exact hx
        obtain ⟨v, hv⟩ := existsTrue_readIn e k mapping fs hp hrj hex0
        have hread : (e.read k mapping fs).1 = .ok (some v) := by
          rw [read_eq e k mapping fs hp]
          simp [hex0, hrj, hv]
        have hrdv : e.rdO k mapping fs = some v := by
          unfold JSONEntry.rdO
          rw [hread]
        exact ⟨hrdv ▸ hread, by rw [hrdv, hv]⟩
      refine ⟨?_, hcon2, ?_, rfl⟩
      · rw [← h]
        rw [List.map_map]
        have h0 := (hrd f0 (List.mem_cons_self f0 frest)).2
        have ht : List.map ((fun nk =>
              match e.json.readIn nk jd with
              | .ok o => o
              | .error _ => none) ∘
            (fun k => if mapping then e.js.mapKey k else k)) frest =
            List.map (fun k => e.rdO k mapping fs) frest := by
          apply List.map_congr_left
          intro k hk
          exact ((hrd k (List.mem_cons_of_mem f0 hk)).2).symm
        rw [ht, ← h0]
      · intro k hk hxb
        have hmem : k ∈ keys.filter (fun k => e.exB k mapping fs) :=
          List.mem_filter.mpr ⟨hk, hxb⟩
        rw [hFK] at hmem
        exact (hrd k hmem).1

theorem listSet_lookup_eq_self {κ : Type u} {ν : Type v} [BEq κ] [LawfulBEq κ]
    (l : List (κ × ν)) (k : κ) (v : ν) (h : l.lookup k = some v) :
    listSet l k v = l := by
  induction l with
  | nil => simp [List.lookup] at h
  | cons hd tl ih =>
    obtain ⟨k', v'⟩ := hd
    by_cases hk : k == k'
    · have hkk : k = k' := by simpa using hk
      subst hkk
      simp only [List.lookup, beq_self_eq_true] at h
      have hv : v' = v := by simpa using h
      subst hv
      simp [listSet]
    · have hk2 : (k' == k) = false := by
        cases hx : k' == k
        · rfl
        · exfalso
          have : k' = k := by simpa using hx
          subst this
          simp at hk
      have hk3 : (k == k') = false := by
        cases hx : k == k'
        · rfl
        · exact absurd hx (by simp [hk])
      simp only [List.lookup, hk3] at h
      simp [listSet, hk2, ih h]

theorem ensureDoc_present {α : Type u} (e : JSONEntry α) (fs : FS)
    {p : List String} (hp : e.js.json_path e.json.json_layer = .ok p)
    (hf : fs.isfile p = true) : e.ensureDoc fs = (.ok (), fs) := by
  unfold JSONEntry.ensureDoc
  rw [json_exists_eq fs hp, hf]

theorem write_step {α : Type u} (e : JSONEntry α) (mapping : Bool)
    {p : List String} (hp : e.js.json_path e.json.json_layer = .ok p)
    (fs' : FS) (es : List (String × JVal))
    (hdoc : fs'.docs.lookup p = some (JVal.obj es)) (k : List String) (v : α) :
    e.write v k mapping fs' =
      match jvalSetPath e.json.name (e.json.writer_ v)
          (e.json.addLayer (if mapping then e.js.mapKey k else k))
          (JVal.obj es) with
      | .error er => (.error er, fs'.bumpR)
      | .ok jd' => (.ok (), writeJson fs'.bumpR p jd') := by
  have hf : fs'.isfile p = true := by
    simp [FS.isfile, hdoc]
  unfold JSONEntry.write
  rw [ensureDoc_present e fs' hp hf]
  simp only [hp]
  unfold JSONObject.write
  have hrj : readJson fs' p = (.ok (JVal.obj es), fs'.bumpR) := by
    unfold readJson
    rw [hdoc]
  simp only [hrj]

theorem seqWrites_fold {α : Type u} (e : JSONEntry α) (mapping : Bool)
    {p : List String} (hp : e.js.json_path e.json.json_layer = .ok p) :
    ∀ (pvs : List (List String × α)) (fs' : FS) (es : List (String × JVal)),
      fs'.docs.lookup p = some (JVal.obj es) →
      (match e.json.writeFold (pvs.map (fun kv =>
          ((if mapping then e.js.mapKey kv.1 else kv.1), kv.2)))
          (JVal.obj es) with
       | .ok d' => e.seqWrites pvs mapping fs' = (.ok (),
           { fs' with
               docs := listSet fs'.docs p d',
               jreads := fs'.jreads + pvs.length,
               jwrites := fs'.jwrites + pvs.length })
       | .error er => (e.seqWrites pvs mapping fs').1 = .error er) := by
  intro pvs
  induction pvs with
  | nil =>
    intro fs' es hdoc
    simp only [List.map_nil]
    show e.seqWrites [] mapping fs' = (.ok (), { fs' with
        docs := listSet fs'.docs p (JVal.obj es),
        jreads := fs'.jreads + 0, jwrites := fs'.jwrites + 0 })
    rw [listSet_lookup_eq_self _ _ _ hdoc]
    rfl
  | cons kv rest ih =>
    intro fs' es hdoc
    obtain ⟨k, v⟩ := kv
    simp only [List.map_cons]
    unfold JSONObject.writeFold
    rcases hset : jvalSetPath e.json.name (e.json.writer_ v)
        (e.json.addLayer (if mapping then e.js.mapKey k else k))
        (JVal.obj es) with er | jd1
    · simp only [hset]
      have hw := write_step e mapping hp fs' es hdoc k v
      simp only [hset] at hw
      unfold JSONEntry.seqWrites
      simp only [hw]
    · obtain ⟨es1, hes1⟩ := jvalSetPath_obj _ _ _ hset
      subst hes1
      simp only [hset]
      have hw := write_step e mapping hp fs' es hdoc k v
      simp only [hset] at hw
      have hdoc1 : (writeJson fs'.bumpR p (JVal.obj es1)).docs.lookup p =
          some (JVal.obj es1) := by
        unfold writeJson FS.bumpR
        simp only
        exact listSet_lookup_self _ _ _
      have hih := ih (writeJson fs'.bumpR p (JVal.obj es1)) es1 hdoc1
      rcases hfold : e.json.writeFold (rest.map (fun kv =>
          ((if mapping then e.js.mapKey kv.1 else kv.1), kv.2)))
          (JVal.obj es1) with er | d'
      · simp only [hfold] at hih ⊢
        unfold JSONEntry.seqWrites
        simp only [hw]
        exact hih
      · simp only [hfold] at hih ⊢
        unfold JSONEntry.seqWrites
        simp only [hw]
        rw [hih]
        cases fs'
        simp only [writeJson, FS.bumpR, Prod.mk.injEq, FS.mk.injEq,
          List.length_cons, listSet_listSet]
        exact ⟨trivial, trivial, trivial, trivial, by omega, by omega⟩

theorem mapPairEta {α : Type u} :
    ∀ (l : List (List String × α)), l.map (fun kv => (kv.1, kv.2)) = l := by
  intro l
  induction l with
  | nil => rfl
  | cons a t ih => simp [ih]

theorem writeAllSpec {α : Type u} (e : JSONEntry α) (mapping : Bool)
    {p : List String} (hp : e.js.json_path e.json.json_layer = .ok p) :
    ∀ (keys : List (List String)) (vals : List α) (fs : FS),
      keys.zip vals ≠ [] →
      (e.write_all vals keys mapping fs).1 = .ok () →
      ((e.seqWrites (keys.zip vals) mapping fs).1 = .ok () ∧
       ((e.seqWrites (keys.zip vals) mapping fs).2).docs =
         ((e.write_all vals keys mapping fs).2).docs ∧
       ((e.seqWrites (keys.zip vals) mapping fs).2).files =
         ((e.write_all vals keys mapping fs).2).files ∧
       ((e.seqWrites (keys.zip vals) mapping fs).2).dirs =
         ((e.write_all vals keys mapping fs).2).dirs ∧
       ((e.write_all vals keys mapping fs).2).jreads = fs.jreads + 1 ∧
       ((e.write_all vals keys mapping fs).2).jwrites =
         fs.jwrites + 1 + e.createWrites fs) := by
  intro keys vals fs hne h
  obtain ⟨p0, hp0⟩ := json_path_none_ok hp
  have hM : (if mapping then keys.map e.js.mapKey else keys).zip vals =
      (keys.zip vals).map (fun kv =>
        ((if mapping then e.js.mapKey kv.1 else kv.1), kv.2)) := by
    cases mapping
    · simp only [Bool.false_eq_true, if_false]
      exact (mapPairEta (keys.zip vals)).symm
    · simp only [if_true]
      exact zipMapFst e.js.mapKey keys vals
  by_cases hf1 : fs.isfile p
  · have hens : e.ensureDoc fs = (.ok (), fs) := ensureDoc_present e fs hp hf1
    have hcw : e.createWrites fs = 0 := by
      unfold JSONEntry.createWrites
      rw [json_exists_eq fs hp, json_exists_eq fs hp0, hf1]
    rcases hdlk : fs.docs.lookup p with _ | jv
    · exfalso
      have hfl : (fs.files.lookup p).isSome = true := by
        unfold FS.isfile at hf1
        rw [hdlk] at hf1
        simpa using hf1
      have hrj : readJson fs p = (.error .documentCorruption, fs.bumpR) := by
        unfold readJson
        rw [hdlk]
        simp [hfl]
      unfold JSONEntry.write_all at h
      simp only [hens, hp] at h
      unfold JSONObject.write_all at h
      simp only [hrj] at h
      simp at h
    · cases jv with
      | str s =>
        exfalso
        have hrj : readJson fs p = (.error .documentCorruption, fs.bumpR) := by
          unfold readJson
          rw [hdlk]
        unfold JSONEntry.write_all at h
        simp only [hens, hp] at h
        unfold JSONObject.write_all at h
        simp only [hrj] at h
        simp at h
      | obj es0 =>
        have hrj : readJson fs p = (.ok (JVal.obj es0), fs.bumpR) := by
          unfold readJson
          rw [hdlk]
        unfold JSONEntry.write_all at h ⊢
        simp only [hens, hp] at h ⊢
        unfold JSONObject.write_all at h ⊢
        simp only [hrj] at h ⊢
        rcases hfold : e.json.writeFold
            ((if mapping then keys.map e.js.mapKey else keys).zip vals)
            (JVal.obj es0) with er | d'
        · simp only [hfold] at h
          simp at h
        · simp only [hfold] at h ⊢
          have hseq := seqWrites_fold e mapping hp (keys.zip vals) fs es0 hdlk
          rw [hM] at hfold
          simp only [hfold] at hseq
          rw [hseq]
          rw [hcw]
          exact ⟨rfl, rfl, rfl, rfl, rfl, rfl⟩
  · have hf1x : fs.isfile p = false := by
      cases hx : fs.isfile p
      · rfl
      · exact absurd hx hf1
    have hexl : e.js.json_exists e.json.json_layer fs = .ok false := by
      rw [json_exists_eq fs hp, hf1x]
    have hd0 : fs.docs.lookup p = none := by
      rcases hx : fs.docs.lookup p with _ | jv
      · rfl
      · exfalso
        exact hf1 (by simp [FS.isfile, hx])
    have hfl : fs.files.lookup p = none := by
      rcases hx : fs.files.lookup p with _ | s
      · rfl
      · exfalso
        exact hf1 (by simp [FS.isfile, hx])
    rcases hzip : keys.zip vals with _ | ⟨⟨k0, v0⟩, prest⟩
    · exact absurd hzip hne
    by_cases hf0 : fs.isfile p0
    · have hens : e.ensureDoc fs = (.ok (), fs) := by
        unfold JSONEntry.ensureDoc
        rw [hexl]
        unfold DataSeries.json_create
        rw [json_exists_eq fs hp0, hf0]
      have hcw : e.createWrites fs = 0 := by
        unfold JSONEntry.createWrites
        rw [json_exists_eq fs hp, json_exists_eq fs hp0, hf0, hf1x]
      have hrj : readJson fs p = (.ok (JVal.obj []), fs.bumpR) := by
        unfold readJson
        rw [hd0, hfl]
        simp
      unfold JSONEntry.write_all at h ⊢
      simp only [hens, hp] at h ⊢
      unfold JSONObject.write_all at h ⊢
      simp only [hrj] at h ⊢
      rcases hfold : e.json.writeFold
          ((if mapping then keys.map e.js.mapKey else keys).zip vals)
          (JVal.obj []) with er | d'
      · simp only [hfold] at h
        simp at h
      · simp only [hfold] at h ⊢
        rw [hM, hzip] at hfold
        simp only [List.map_cons] at hfold
        unfold JSONObject.writeFold at hfold
        rcases hset : jvalSetPath e.json.name (e.json.writer_ v0)
            (e.json.addLayer (if mapping then e.js.mapKey k0 else k0))
            (JVal.obj []) with er | jd1
        · simp only [hset] at hfold
          simp at hfold
        · simp only [hset] at hfold
          obtain ⟨es1, hes1⟩ := jvalSetPath_obj _ _ _ hset
          subst hes1
          have hw : e.write v0 k0 mapping fs =
              (.ok (), writeJson fs.bumpR p (JVal.obj es1)) := by
            unfold JSONEntry.write
            simp only [hens, hp]
            unfold JSONObject.write
            simp only [hrj, hset]
          unfold JSONEntry.seqWrites
          simp only [hw]
          have hdoc1 : (writeJson fs.bumpR p (JVal.obj es1)).docs.lookup p =
              some (JVal.obj es1) := by
            unfold writeJson FS.bumpR
            simp only
            exact listSet_lookup_self _ _ _
          have hseq := seqWrites_fold e mapping hp prest
            (writeJson fs.bumpR p (JVal.obj es1)) es1 hdoc1
          simp only [hfold] at hseq
          rw [hseq]
          rw [hcw]
          refine ⟨rfl, ?_, rfl, rfl, rfl, rfl⟩
          simp only [writeJson, FS.bumpR, listSet_listSet]
    · have hens : e.ensureDoc fs =
          (.ok (), writeJson fs p (JVal.obj [])) := by
        unfold JSONEntry.ensureDoc
        rw [hexl]
        unfold DataSeries.json_create
        rw [json_exists_eq fs hp0]
        simp only [hf0, Bool.false_eq_true, if_false]
        rw [hp]
      have hf0x : fs.isfile p0 = false := by
        cases hx : fs.isfile p0
        · rfl
        · exact absurd hx hf0
      have hcw : e.createWrites fs = 1 := by
        unfold JSONEntry.createWrites
        rw [json_exists_eq fs hp, json_exists_eq fs hp0, hf0x, hf1x]
      have hdC : (writeJson fs p (JVal.obj [])).docs.lookup p =
          some (JVal.obj []) := by
        unfold writeJson
        simp only
        exact listSet_lookup_self _ _ _
      have hrjC : readJson (writeJson fs p (JVal.obj [])) p =
          (.ok (JVal.obj []), (writeJson fs p (JVal.obj [])).bumpR) := by
        unfold readJson
        rw [hdC]
      unfold JSONEntry.write_all at h ⊢
      simp only [hens, hp] at h ⊢
      unfold JSONObject.write_all at h ⊢
      simp only [hrjC] at h ⊢
      rcases hfold : e.json.writeFold
          ((if mapping then keys.map e.js.mapKey else keys).zip vals)
          (JVal.obj []) with er | d'
      · simp only [hfold] at h
        simp at h
      · simp only [hfold] at h ⊢
        rw [hM, hzip] at hfold
        simp only [List.map_cons] at hfold
        unfold JSONObject.writeFold at hfold
        rcases hset : jvalSetPath e.json.name (e.json.writer_ v0)
            (e.json.addLayer (if mapping then e.js.mapKey k0 else k0))
            (JVal.obj []) with er | jd1
        · simp only [hset] at hfold
          simp at hfold
        · simp only [hset] at hfold
          obtain ⟨es1, hes1⟩ := jvalSetPath_obj _ _ _ hset
          subst hes1
          have hw : e.write v0 k0 mapping fs =
              (.ok (), writeJson (writeJson fs p (JVal.obj [])).bumpR p
                (JVal.obj es1)) := by
            unfold JSONEntry.write
            simp only [hens, hp]
            unfold JSONObject.write
            simp only [hrjC, hset]
          unfold JSONEntry.seqWrites
          simp only [hw]
          have hdoc1 : ((writeJson (writeJson fs p (JVal.obj [])).bumpR p
              (JVal.obj es1)).docs).lookup p = some (JVal.obj es1) := by
            unfold writeJson FS.bumpR
            simp only
            exact listSet_lookup_self _ _ _
          have hseq := seqWrites_fold e mapping hp prest
            (writeJson (writeJson fs p (JVal.obj [])).bumpR p (JVal.obj es1))
            es1 hdoc1
          simp only [hfold] at hseq
          rw [hseq]
          rw [hcw]
          refine ⟨rfl, ?_, rfl, rfl, rfl, rfl⟩
          simp only [writeJson, FS.bumpR, listSet_listSet]

/-! ## C1: batched document reads and writes versus the single-key forms -/

/-- Concrete document for C1: the key `("k2",)` is set (its field `"n"`
holds `"v"`), the key `("k1",)` is unset. -/
def c1doc : JVal := JVal.obj [("k2", JVal.obj [("n", JVal.str "v")])]

/-- Concrete series for C1 (no parent chain, prefix `p`). -/
def c1ds : DataSeries :=
  ⟨⟨⟨true, ["p"]⟩, fun ls => ⟨false, ls⟩, 1, 1, none, false⟩, []⟩

/-- The C1 document field (field name `"n"`, no layering). -/
def c1e : JSONEntry String :=
  JSONEntry.init c1ds
    (JSONObject.init "n" [] none id
      (fun j => match j with | JVal.str s => s | JVal.obj _ => ""))

/-- The C1 filesystem: the document file holds `c1doc`. -/
def c1fs : FS := ⟨[["p"]], [], [(["p", "db.json"], c1doc)], 0, 0⟩

/-- The C1 filesystem without the document file. -/
def c1fs0 : FS := ⟨[["p"]], [], [], 0, 0⟩

/-- **C1** (corrected): batching a `DocumentField`'s reads and writes.
`read_all keys` returns, in the given order, the single-key `read` results
of exactly those keys whose per-key existence check passes — an unset key
is dropped from the output, not reported as an absent result at its
position — and performs one document read per key (the existence checks)
plus one batched document read when at least one key survives (none
otherwise). `write_all` on at least one key/value pair, when it succeeds,
leaves exactly the directories, files and document contents of writing each
(value, key) pair in order through the single-key `write`, and performs one
document read and one document write, plus the creation-guard's extra
document write when the document file did not yet exist. -/
theorem jsonEntry_batch_spec {α : Type u} (e : JSONEntry α) (mapping : Bool)
    {p : List String} (hp : e.js.json_path e.json.json_layer = .ok p) :
    (∀ (keys : List (List String)) (fs : FS) (vs : List (Option α)),
      (e.read_all keys mapping fs).1 = .ok vs →
      (vs = (keys.filter (fun k => e.exB k mapping fs)).map
          (fun k => e.rdO k mapping fs) ∧
       (∀ k ∈ keys, e.exB k mapping fs = false →
          (e.read k mapping fs).1 = .ok none) ∧
       (∀ k ∈ keys, e.exB k mapping fs = true →
          (e.read k mapping fs).1 = .ok (e.rdO k mapping fs)) ∧
       (e.read_all keys mapping fs).2 =
         { fs with jreads := fs.jreads + keys.length +
             (if (keys.filter (fun k => e.exB k mapping fs)).isEmpty
              then 0 else 1) })) ∧
    (∀ (keys : List (List String)) (vals : List α) (fs : FS),
      keys.zip vals ≠ [] →
      (e.write_all vals keys mapping fs).1 = .ok () →
      ((e.seqWrites (keys.zip vals) mapping fs).1 = .ok () ∧
       ((e.seqWrites (keys.zip vals) mapping fs).2).docs =
         ((e.write_all vals keys mapping fs).2).docs ∧
       ((e.seqWrites (keys.zip vals) mapping fs).2).files =
         ((e.write_all vals keys mapping fs).2).files ∧
       ((e.seqWrites (keys.zip vals) mapping fs).2).dirs =
         ((e.write_all vals keys mapping fs).2).dirs ∧
       ((e.write_all vals keys mapping fs).2).jreads = fs.jreads + 1 ∧
       ((e.write_all vals keys mapping fs).2).jwrites =
         fs.jwrites + 1 + e.createWrites fs)) :=
  ⟨readAllSpec e mapping hp, writeAllSpec e mapping hp⟩

/-- C1 witness: at the concrete field and states, the document path
resolves, the surviving key of `read_all` reads back its single-key value,
and the batched write of one pair matches the sequential write. -/
theorem jsonEntry_batch_spec_witness :
    c1e.js.json_path c1e.json.json_layer = .ok ["p", "db.json"] ∧
    (c1e.read ["k2"] false c1fs).1 = .ok (c1e.rdO ["k2"] false c1fs) ∧
    (c1e.seqWrites ([["k2"]].zip ["w"]) false c1fs).1 = .ok () := by
  refine ⟨rfl, ?_, ?_⟩
  · exact ((jsonEntry_batch_spec c1e false rfl).1 [["k2"]] c1fs [some "v"]
      rfl).2.2.1 ["k2"] (by simp) rfl
  · exact ((jsonEntry_batch_spec c1e false rfl).2 [["k2"]] ["w"] c1fs
      (by simp) rfl).1

/-- C1 counterexample to the claim as stated: with `("k1",)` unset and
`("k2",)` set, `read_all(("k1",), ("k2",))` returns a one-element list —
no absent result at the position of the unset key — while the single-key
reads return an absent result for `("k1",)` and the value for `("k2",)`;
it performs three document reads (two existence checks plus one batched
read), not exactly one; and `write_all` of zero pairs still creates and
rewrites the document file, while iterating zero single-key writes leaves
the state untouched (no document file). -/
theorem jsonEntry_batch_not_positionwise :
    (c1e.read_all [["k1"], ["k2"]] false c1fs).1 = .ok [some "v"] ∧
    (c1e.read ["k1"] false c1fs).1 = .ok none ∧
    (c1e.read ["k2"] false c1fs).1 = .ok (some "v") ∧
    ((c1e.read_all [["k1"], ["k2"]] false c1fs).2).jreads = 3 ∧
    c1fs.jreads = 0 ∧
    (c1e.write_all [] [] false c1fs0).1 = .ok () ∧
    ((c1e.write_all [] [] false c1fs0).2).isfile ["p", "db.json"] = true ∧
    c1e.seqWrites (([] : List (List String)).zip ([] : List String)) false
      c1fs0 = (.ok (), c1fs0) ∧
    c1fs0.isfile ["p", "db.json"] = false :=
  ⟨rfl, rfl, rfl, rfl, rfl, rfl, rfl, rfl, rfl⟩

end Autofile